import Mathlib

/-!
# SystemPacketHandler (maidsafe/passport/system_packet_handler.cc)

A shallow embedding of the packet store of `SystemPacketHandler` and its
operations, followed by theorems about them.

The store `packets_` is a `std::map<PacketType, PacketInfo>`: keys are unique,
so it is embedded as a finite function from packet types to optional entries.
`packets_.find(t) == packets_.end()` is `packets_ t = none`.  The mutex taken
by every operation is not part of the sequential embedding.  Shared pointers
are embedded as optional values (`none` is the null pointer).
-/

namespace maidsafe.passport

/-- Modelled from the spec: the `PacketType` enumeration is declared in
`passport_config.h`, which is not among the sources.  The spec gives the closed
set of twelve types; the constructor names are the enumerators used in
`system_packet_handler.cc`. -/
inductive PacketType where
  | MID
  | SMID
  | TMID
  | STMID
  | MPID
  | PMID
  | MAID
  | ANMID
  | ANSMID
  | ANTMID
  | ANMPID
  | ANMAID
deriving DecidableEq, Repr, Fintype

/-- Modelled from the spec: `pki::Packet` and its subclasses are declared
outside the sources.  A packet is an opaque value tagged with a type and a
content-derived name; `value` stands for the rest of its content. -/
structure Packet where
  packet_type : PacketType
  name : String
  value : String
deriving DecidableEq, Repr

/-- Modelled from the spec: `Packet::Equals` is structural equality. -/
def Packet.Equals (a b : Packet) : Bool := decide (a = b)

/-- Modelled from the spec: `PacketInfo` is declared in
`system_packet_handler.h`, which is not among the sources: a pending and a
stored shared pointer, either of which may be null. -/
structure PacketInfo where
  pending : Option Packet
  stored : Option Packet
deriving DecidableEq, Repr

/-- Modelled from the spec: the constructor `PacketInfo(packet)` used by
`AddPendingPacket` yields `pending = packet`, `stored = None`. -/
def PacketInfo.ofPending (packet : Packet) : PacketInfo :=
  { pending := some packet, stored := none }

/-- The map `std::map<PacketType, PacketInfo>`. -/
abbrev SystemPacketMap := PacketType → Option PacketInfo

/-- The store as created: no entries. -/
def SystemPacketMap.empty : SystemPacketMap := fun _ => none

/-- Assignment through an iterator or insertion of an absent key: the entry of
`t` becomes `info`, every other key keeps its entry. -/
def SystemPacketMap.set (packets_ : SystemPacketMap) (t : PacketType)
    (info : PacketInfo) : SystemPacketMap :=
  fun u => if u = t then some info else packets_ u

/-- Modelled from the spec: the result codes are declared in a header that is
not among the sources; only their being distinct matters. -/
inductive ReturnCode where
  | kSuccess
  | kNullPointer
  | kNoPendingPacket
  | kMissingDependentPackets
  | kPacketsNotEqual
  | kNoPacket
  | kBadSerialisedKeyring
  | kKeyringNotEmpty
deriving DecidableEq, Repr

open PacketType ReturnCode

/-- Modelled from the spec: `IsSignature(type, false)` is defined outside the
sources.  The spec names the Signature types: `AnMid, AnSmid, AnTmid, AnMpid,
AnMaid`, plus `Maid`. -/
def IsSignature (packet_type : PacketType) : Bool :=
  match packet_type with
  | ANMID | ANSMID | ANTMID | ANMPID | ANMAID | MAID => true
  | _ => false

/-- `SystemPacketHandler::IsConfirmed(packets_.find(t))`, lines 242-244. -/
def IsConfirmed (packets_ : SystemPacketMap) (t : PacketType) : Bool :=
  match packets_ t with
  | none => false
  | some info => info.pending.isNone && info.stored.isSome

/-- `SystemPacketHandler::Confirmed`, lines 237-240. -/
def Confirmed (packets_ : SystemPacketMap) (packet_type : PacketType) : Bool :=
  IsConfirmed packets_ packet_type

/-- `SystemPacketHandler::AddPendingPacket`, lines 42-64.  Returns the result
and the store after the call.  The insertion of line 51 happens only after
`find` has failed, so `result.second` is true. -/
def AddPendingPacket (packets_ : SystemPacketMap) (packet : Option Packet) :
    Bool × SystemPacketMap :=
  match packet with
  | none => (false, packets_)
  | some p =>
    match packets_ p.packet_type with
    | none => (true, packets_.set p.packet_type (PacketInfo.ofPending p))
    | some info => (true, packets_.set p.packet_type { info with pending := some p })

/-- The `switch` of `ConfirmPacket`, lines 85-115: the value of
`dependencies_confirmed`. -/
def dependencies_confirmed (packets_ : SystemPacketMap) (packet_type : PacketType) : Bool :=
  match packet_type with
  | MID => IsConfirmed packets_ ANMID
  | SMID => IsConfirmed packets_ ANSMID
  | TMID => IsConfirmed packets_ ANTMID && IsConfirmed packets_ MID && IsConfirmed packets_ ANMID
  | STMID => IsConfirmed packets_ ANTMID && IsConfirmed packets_ SMID && IsConfirmed packets_ ANSMID
  | MPID => IsConfirmed packets_ ANMPID
  | PMID => IsConfirmed packets_ MAID && IsConfirmed packets_ ANMAID
  | MAID => IsConfirmed packets_ ANMAID
  | _ => true

/-- `SystemPacketHandler::ConfirmPacket`, lines 66-132.  Returns the result
code and the store after the call. -/
def ConfirmPacket (packets_ : SystemPacketMap) (packet : Option Packet) :
    ReturnCode × SystemPacketMap :=
  match packet with
  | none => (kNullPointer, packets_)
  | some p =>
    match packets_ p.packet_type with
    | none => (kNoPendingPacket, packets_)
    | some info =>
      match info.pending with
      | none =>
        match info.stored with
        | some s => if s.Equals p then (kSuccess, packets_) else (kNoPendingPacket, packets_)
        | none => (kNoPendingPacket, packets_)
      | some pend =>
        if !dependencies_confirmed packets_ p.packet_type then
          (kMissingDependentPackets, packets_)
        else if !pend.Equals p then
          (kPacketsNotEqual, packets_)
        else
          (kSuccess, packets_.set p.packet_type { pending := none, stored := some pend })

/-- `SystemPacketHandler::RevertPacket`, lines 134-145. -/
def RevertPacket (packets_ : SystemPacketMap) (packet_type : PacketType) :
    Bool × SystemPacketMap :=
  match packets_ packet_type with
  | none => (false, packets_)
  | some info => (true, packets_.set packet_type { info with pending := none })

/-- `SystemPacketHandler::GetPacket(const PacketType&, bool)`, lines 147-187.
The copy constructors return a value equal to `retrieved_packet`; a null
result is `none`. -/
def GetPacket (packets_ : SystemPacketMap) (packet_type : PacketType) (confirmed : Bool) :
    Option Packet :=
  match packets_ packet_type with
  | none => none
  | some info =>
    let retrieved_packet : Option Packet :=
      if confirmed && info.stored.isSome then info.stored
      else if !confirmed && info.pending.isSome then info.pending
      else none
    match retrieved_packet with
    | some r =>
      if packet_type = TMID || packet_type = STMID then some r
      else if packet_type = MID || packet_type = SMID then some r
      else if IsSignature packet_type then some r
      else none
    | none => none

/-- Modelled from the spec: iteration over the map visits every key once, in
the order of the enumerators of `PacketType`, which `passport_config.h` (not
among the sources) fixes and the spec leaves unspecified.  A key order is any
listing of the twelve types without repetition; the operations that iterate
take it as an argument. -/
structure KeyOrder where
  keys : List PacketType
  nodup : keys.Nodup
  complete : ∀ t, t ∈ keys

/-- `std::map::insert`: the entry is added only when the key has none; the
second component tells whether it was added. -/
def SystemPacketMap.insert (packets_ : SystemPacketMap) (t : PacketType)
    (info : PacketInfo) : SystemPacketMap × Bool :=
  match packets_ t with
  | none => (packets_.set t info, true)
  | some _ => (packets_, false)

/-- `std::map::erase` of one key. -/
def SystemPacketMap.erase (packets_ : SystemPacketMap) (t : PacketType) : SystemPacketMap :=
  fun u => if u = t then none else packets_ u

/-- `std::map::empty`. -/
def SystemPacketMap.isEmpty (packets_ : SystemPacketMap) : Bool :=
  decide (∀ t, packets_ t = none)

/-- The loop of `GetPacket(const std::string&, bool)`, lines 196-227, over the
keys still to visit.  Reaching an entry whose requested slot holds a packet of
the given name sets `done` and ends the loop, whether or not a copy is made. -/
def GetPacketByIdLoop (packets_ : SystemPacketMap) (packet_id : String) (confirmed : Bool) :
    List PacketType → Option Packet
  | [] => none
  | t :: rest =>
    match packets_ t with
    | none => GetPacketByIdLoop packets_ packet_id confirmed rest
    | some info =>
      let retrieved_packet : Option Packet :=
        if (info.stored.any fun s => s.name = packet_id) && confirmed then info.stored
        else if (info.pending.any fun q => q.name = packet_id) && !confirmed then info.pending
        else none
      match retrieved_packet with
      | some r =>
        if r.packet_type = TMID || r.packet_type = STMID then some r
        else if r.packet_type = MID || r.packet_type = SMID then some r
        else if IsSignature r.packet_type then some r
        else none
      | none => GetPacketByIdLoop packets_ packet_id confirmed rest

/-- `SystemPacketHandler::GetPacket(const std::string&, bool)`, lines 189-235. -/
def GetPacketById (order : KeyOrder) (packets_ : SystemPacketMap) (packet_id : String)
    (confirmed : Bool) : Option Packet :=
  GetPacketByIdLoop packets_ packet_id confirmed order.keys

/-- The loop of `SerialiseKeyring`, lines 253-259: `spm` after the keys given
have been visited. -/
def SerialiseKeyringLoop (packets_ : SystemPacketMap) :
    List PacketType → SystemPacketMap → SystemPacketMap
  | [], spm => spm
  | t :: rest, spm =>
    match packets_ t with
    | none => SerialiseKeyringLoop packets_ rest spm
    | some info =>
      if IsSignature t && info.stored.isSome then
        SerialiseKeyringLoop packets_ rest (spm.insert t info).1
      else SerialiseKeyringLoop packets_ rest spm

/-- `SystemPacketHandler::SerialiseKeyring`, lines 246-263: the map `spm` that
is written to the archive.  The text archive itself is outside the sources; the
store is only read. -/
def SerialiseKeyring (order : KeyOrder) (packets_ : SystemPacketMap) : SystemPacketMap :=
  SerialiseKeyringLoop packets_ order.keys SystemPacketMap.empty

/-- Modelled from the spec: the text archive and the serialisation of
`PacketInfo` are outside the sources.  The spec describes the keyring blob as a
self-describing mapping of type to packet with unique type keys. -/
abbrev KeyringBlob := PacketType → Option Packet

/-- Modelled from the spec: `output_archive << spm`, line 261.  Each entry of
`spm` is written as its type and its stored packet. -/
def encodeKeyring (spm : SystemPacketMap) : KeyringBlob :=
  fun t =>
    match spm t with
    | some info => info.stored
    | none => none

/-- Modelled from the spec: `input_archive >> spm`, line 271.  Each pair of the
blob is read back as an entry whose stored value is the packet, with no pending
value. -/
def decodeKeyring (blob : KeyringBlob) : SystemPacketMap :=
  fun t =>
    match blob t with
    | some p => some { pending := none, stored := some p }
    | none => none

/-- The loop of `ParseKeyring`, lines 278-285, over the keys of `spm` still to
visit. -/
def ParseKeyringLoop (spm : SystemPacketMap) :
    List PacketType → SystemPacketMap → ReturnCode × SystemPacketMap
  | [], packets_ => (kSuccess, packets_)
  | t :: rest, packets_ =>
    match spm t with
    | none => ParseKeyringLoop spm rest packets_
    | some info =>
      if (packets_.insert t info).2 then ParseKeyringLoop spm rest (packets_.insert t info).1
      else (kKeyringNotEmpty, (packets_.insert t info).1)

/-- `SystemPacketHandler::ParseKeyring`, lines 265-288, from the map `spm` read
from the archive. -/
def ParseKeyring (order : KeyOrder) (packets_ : SystemPacketMap) (spm : SystemPacketMap) :
    ReturnCode × SystemPacketMap :=
  if spm.isEmpty then (kBadSerialisedKeyring, packets_)
  else ParseKeyringLoop spm order.keys packets_

/-- The loop of `ClearKeyring`, lines 293-299. -/
def ClearKeyringLoop : List PacketType → SystemPacketMap → SystemPacketMap
  | [], packets_ => packets_
  | t :: rest, packets_ =>
    match packets_ t with
    | none => ClearKeyringLoop rest packets_
    | some _ =>
      if IsSignature t then ClearKeyringLoop rest (packets_.erase t)
      else ClearKeyringLoop rest packets_

/-- `ParseKeyring` applied, on the empty store, to the output of
`SerialiseKeyring` on the source store. -/
def keyringRoundTrip (order : KeyOrder) (source : SystemPacketMap) :
    ReturnCode × SystemPacketMap :=
  ParseKeyring order SystemPacketMap.empty
    (decodeKeyring (encodeKeyring (SerialiseKeyring order source)))

/-- `SystemPacketHandler::ClearKeyring`, lines 290-300. -/
def ClearKeyring (order : KeyOrder) (packets_ : SystemPacketMap) : SystemPacketMap :=
  ClearKeyringLoop order.keys packets_

/-- `SystemPacketHandler::DeletePacket`, lines 302-312. -/
def DeletePacket (packets_ : SystemPacketMap) (packet_type : PacketType) :
    ReturnCode × SystemPacketMap :=
  match packets_ packet_type with
  | none => (kNoPacket, packets_)
  | some _ => (kSuccess, packets_.erase packet_type)

/-- `SystemPacketHandler::Clear`, lines 314-317. -/
def Clear (_packets_ : SystemPacketMap) : SystemPacketMap := SystemPacketMap.empty

/-- One call of a public operation of the store, with its arguments. -/
inductive Operation where
  | addPendingPacket (packet : Option Packet)
  | confirmPacket (packet : Option Packet)
  | revertPacket (packet_type : PacketType)
  | deletePacket (packet_type : PacketType)
  | clear
  | clearKeyring
  | parseKeyring (spm : SystemPacketMap)
  | getPacketByType (packet_type : PacketType) (confirmed : Bool)
  | getPacketById (packet_id : String) (confirmed : Bool)
  | confirmed (packet_type : PacketType)
  | serialiseKeyring

/-- The store after one call.  The two `GetPacket` overloads, `Confirmed` and
`SerialiseKeyring` do not assign to `packets_`. -/
def Operation.run (order : KeyOrder) (packets_ : SystemPacketMap) : Operation → SystemPacketMap
  | .addPendingPacket packet => (AddPendingPacket packets_ packet).2
  | .confirmPacket packet => (ConfirmPacket packets_ packet).2
  | .revertPacket packet_type => (RevertPacket packets_ packet_type).2
  | .deletePacket packet_type => (DeletePacket packets_ packet_type).2
  | .clear => Clear packets_
  | .clearKeyring => ClearKeyring order packets_
  | .parseKeyring spm => (ParseKeyring order packets_ spm).2
  | .getPacketByType _ _ => packets_
  | .getPacketById _ _ => packets_
  | .confirmed _ => packets_
  | .serialiseKeyring => packets_

/-- A call of `AddPendingPacket`, `ConfirmPacket` or `RevertPacket`. -/
inductive PendingCall where
  | add (packet : Option Packet)
  | confirm (packet : Option Packet)
  | revert (packet_type : PacketType)

/-- The store after one such call. -/
def PendingCall.run (packets_ : SystemPacketMap) : PendingCall → SystemPacketMap
  | .add packet => (AddPendingPacket packets_ packet).2
  | .confirm packet => (ConfirmPacket packets_ packet).2
  | .revert packet_type => (RevertPacket packets_ packet_type).2

/-- The store reached from the empty store by a sequence of such calls. -/
def reached (calls : List PendingCall) : SystemPacketMap :=
  calls.foldl PendingCall.run SystemPacketMap.empty

/-! ## The spec's words, for comparison with the code -/

/-- The Dependency Table of the spec (§4.1): the types that must be confirmed
before a packet of the given type may be confirmed. -/
def prerequisites (packet_type : PacketType) : List PacketType :=
  match packet_type with
  | MID => [ANMID]
  | SMID => [ANSMID]
  | TMID => [ANTMID, MID, ANMID]
  | STMID => [ANTMID, SMID, ANSMID]
  | MPID => [ANMPID]
  | MAID => [ANMAID]
  | PMID => [MAID, ANMAID]
  | ANMID | ANSMID | ANTMID | ANMPID | ANMAID => []

/-- The spec's `Confirmed(type)`: the entry exists, has no pending value and
has a stored value. -/
def ConfirmedSpec (packets_ : SystemPacketMap) (t : PacketType) : Prop :=
  ∃ info, packets_ t = some info ∧ info.pending = none ∧ ∃ s, info.stored = some s

/-- The ordered checks by which the spec decides the result code of
`ConfirmPacket`, written from the spec's words over the Dependency Table. -/
def confirmResultSpec (packets_ : SystemPacketMap) (packet : Option Packet) : ReturnCode :=
  match packet with
  | none => kNullPointer
  | some p =>
    match packets_ p.packet_type with
    | none => kNoPendingPacket
    | some info =>
      if info.pending = none then
        if info.stored = some p then kSuccess else kNoPendingPacket
      else if (prerequisites p.packet_type).any (fun d => !Confirmed packets_ d) then
        kMissingDependentPackets
      else if info.pending ≠ some p then kPacketsNotEqual
      else kSuccess

/-- The value held for a type in the requested slot: stored when `confirmed`,
pending otherwise; `none` when there is no entry or the slot is empty. -/
def slot (packets_ : SystemPacketMap) (t : PacketType) (confirmed : Bool) : Option Packet :=
  match packets_ t with
  | none => none
  | some info => if confirmed then info.stored else info.pending

/-- The types whose packets the two `GetPacket` overloads copy: Tmid, Stmid,
Mid, Smid and the Signature types. -/
def copyable (t : PacketType) : Bool :=
  t = TMID || t = STMID || t = MID || t = SMID || IsSignature t

/-- The first packet, in the order of the keys given, that sits in the requested
slot of an entry and has the given name. -/
def firstMatch (packets_ : SystemPacketMap) (packet_id : String) (confirmed : Bool) :
    List PacketType → Option Packet
  | [] => none
  | t :: rest =>
    match slot packets_ t confirmed with
    | some r => if r.name = packet_id then some r else firstMatch packets_ packet_id confirmed rest
    | none => firstMatch packets_ packet_id confirmed rest

/-- The entry of a type in the keyring: the store's entry when the type is a
Signature type and the entry has a stored value, nothing otherwise. -/
def keyringEntry (packets_ : SystemPacketMap) (t : PacketType) : Option PacketInfo :=
  match packets_ t with
  | some info => if IsSignature t && info.stored.isSome then some info else none
  | none => none

/-- A type collides when both the decoded keyring and the store have an entry
for it. -/
def collides (packets_ spm : SystemPacketMap) (t : PacketType) : Bool :=
  (spm t).isSome && (packets_ t).isSome

/-- The store plus the keyring's entries for the keys given, never replacing an
entry of the store. -/
def mergeOver (packets_ spm : SystemPacketMap) (keys : List PacketType) : SystemPacketMap :=
  fun u =>
    match packets_ u with
    | some e => some e
    | none => if u ∈ keys then spm u else none

/-- The type has a stored value. -/
def hasStored (packets_ : SystemPacketMap) (t : PacketType) : Prop :=
  ∃ v, slot packets_ t true = some v

/-! ## Test data -/

/-- A packet of the given type whose name and content are the given string. -/
def pkt (t : PacketType) (n : String) : Packet := { packet_type := t, name := n, value := n }

/-- AnMaid confirmed; Maid and Pmid pending. -/
def storeMaid : SystemPacketMap :=
  ((SystemPacketMap.empty.set ANMAID { pending := none, stored := some (pkt ANMAID "anmaid") }).set
    MAID { pending := some (pkt MAID "maid"), stored := none }).set
    PMID { pending := some (pkt PMID "pmid"), stored := none }

/-- Mid confirmed while AnMid was confirmed, then a new AnMid proposed: built
from the empty store by the store's own operations. -/
def storeMidStale : SystemPacketMap :=
  let s1 := (AddPendingPacket SystemPacketMap.empty (some (pkt ANMID "anmid"))).2
  let s2 := (ConfirmPacket s1 (some (pkt ANMID "anmid"))).2
  let s3 := (AddPendingPacket s2 (some (pkt MID "mid"))).2
  let s4 := (ConfirmPacket s3 (some (pkt MID "mid"))).2
  (AddPendingPacket s4 (some (pkt ANMID "anmid2"))).2

/-- AnMpid added and confirmed, then Mpid added and confirmed: built from the
empty store by the store's own operations. -/
def storeMpid : SystemPacketMap :=
  let s1 := (AddPendingPacket SystemPacketMap.empty (some (pkt ANMPID "anmpid"))).2
  let s2 := (ConfirmPacket s1 (some (pkt ANMPID "anmpid"))).2
  let s3 := (AddPendingPacket s2 (some (pkt MPID "mpid"))).2
  (ConfirmPacket s3 (some (pkt MPID "mpid"))).2

/-- The key order used in the examples: the constructors in the order of their
declaration. -/
def enumOrder : KeyOrder where
  keys := [MID, SMID, TMID, STMID, MPID, PMID, MAID, ANMID, ANSMID, ANTMID, ANMPID, ANMAID]
  nodup := by decide
  complete := by intro t; cases t <;> decide

/-- The store `storeMaid` after a new AnMaid has been proposed over the
confirmed one: AnMaid has both a stored and a pending value. -/
def storeBoth : SystemPacketMap :=
  (AddPendingPacket storeMaid (some (pkt ANMAID "new"))).2

/-- AnMaid and Maid confirmed, Pmid pending, Mid pending. -/
def storeMixed : SystemPacketMap :=
  let s1 := (ConfirmPacket storeMaid (some (pkt MAID "maid"))).2
  (AddPendingPacket s1 (some (pkt MID "mid"))).2

/-- A decoded keyring with AnMid and AnMaid. -/
def keyringTwo : SystemPacketMap :=
  (SystemPacketMap.empty.set ANMID { pending := none, stored := some (pkt ANMID "k-anmid") }).set
    ANMAID { pending := none, stored := some (pkt ANMAID "k-anmaid") }

/-- A decoded keyring with Maid only. -/
def keyringMaid : SystemPacketMap :=
  SystemPacketMap.empty.set MAID { pending := none, stored := some (pkt MAID "k-maid") }

/-! ## Lemmas on the map -/

theorem SystemPacketMap.set_same (packets_ : SystemPacketMap) (t : PacketType) (info : PacketInfo) :
    packets_.set t info t = some info := by
  simp [SystemPacketMap.set]

theorem SystemPacketMap.set_other (packets_ : SystemPacketMap) (t u : PacketType)
    (info : PacketInfo) (h : u ≠ t) : packets_.set t info u = packets_ u := by
  simp [SystemPacketMap.set, h]

theorem Packet.Equals_iff (a b : Packet) : a.Equals b = true ↔ a = b := by
  simp [Packet.Equals]

theorem IsConfirmed_iff_spec (packets_ : SystemPacketMap) (t : PacketType) :
    IsConfirmed packets_ t = true ↔ ConfirmedSpec packets_ t := by
  unfold IsConfirmed ConfirmedSpec
  cases h : packets_ t with
  | none => simp
  | some info =>
    rcases info with ⟨pe, st⟩
    cases pe <;> cases st <;> simp

theorem dependencies_confirmed_iff (packets_ : SystemPacketMap) (t : PacketType) :
    dependencies_confirmed packets_ t = true ↔
      ∀ d ∈ prerequisites t, IsConfirmed packets_ d = true := by
  cases t <;> simp [dependencies_confirmed, prerequisites, and_assoc]

/-- For an entry with a pending value, `ConfirmPacket` runs the dependency
check and then the equality check. -/
theorem ConfirmPacket_pending (packets_ : SystemPacketMap) (p pend : Packet) (info : PacketInfo)
    (hentry : packets_ p.packet_type = some info) (hpending : info.pending = some pend) :
    ConfirmPacket packets_ (some p) =
      if !dependencies_confirmed packets_ p.packet_type then (kMissingDependentPackets, packets_)
      else if !pend.Equals p then (kPacketsNotEqual, packets_)
      else (kSuccess, packets_.set p.packet_type { pending := none, stored := some pend }) := by
  simp only [ConfirmPacket, hentry, hpending]

/-- For an entry without a pending value, `ConfirmPacket` only compares the
packet with the stored value. -/
theorem ConfirmPacket_no_pending (packets_ : SystemPacketMap) (p : Packet) (info : PacketInfo)
    (hentry : packets_ p.packet_type = some info) (hpending : info.pending = none) :
    ConfirmPacket packets_ (some p) =
      (if info.stored = some p then kSuccess else kNoPendingPacket, packets_) := by
  simp only [ConfirmPacket, hentry, hpending]
  cases hs : info.stored with
  | none => simp
  | some s =>
    by_cases he : s = p
    · simp [Packet.Equals, he]
    · simp [Packet.Equals, he]

/-! ## Lemmas on the loops -/

/-- For a type that is Tmid, Stmid, Mid, Smid or passes `IsSignature`,
`GetPacket` by type returns the value of the requested slot. -/
theorem GetPacket_of_copyable (packets_ : SystemPacketMap) (packet_type : PacketType)
    (confirmed : Bool) (h : copyable packet_type = true) :
    GetPacket packets_ packet_type confirmed = slot packets_ packet_type confirmed := by
  cases hentry : packets_ packet_type with
  | none => simp [GetPacket, slot, hentry]
  | some info =>
    rcases info with ⟨pe, st⟩
    cases confirmed <;> cases pe <;> cases st <;> cases packet_type <;>
      simp [GetPacket, slot, hentry, IsSignature, copyable] at h ⊢

theorem firstMatch_some (packets_ : SystemPacketMap) (packet_id : String) (confirmed : Bool)
    (keys : List PacketType) (r : Packet)
    (h : firstMatch packets_ packet_id confirmed keys = some r) :
    r.name = packet_id ∧ ∃ t, t ∈ keys ∧ slot packets_ t confirmed = some r := by
  induction keys with
  | nil => simp [firstMatch] at h
  | cons t rest ih =>
    simp only [firstMatch] at h
    cases hs : slot packets_ t confirmed with
    | none =>
      rw [hs] at h
      obtain ⟨hn, u, hu, hsu⟩ := ih h
      exact ⟨hn, u, List.mem_cons_of_mem _ hu, hsu⟩
    | some q =>
      rw [hs] at h
      by_cases hq : q.name = packet_id
      · simp only [hq, if_true, Option.some.injEq] at h
        subst h
        exact ⟨hq, t, List.mem_cons_self _ _, hs⟩
      · simp only [hq, if_false] at h
        obtain ⟨hn, u, hu, hsu⟩ := ih h
        exact ⟨hn, u, List.mem_cons_of_mem _ hu, hsu⟩

theorem firstMatch_isSome (packets_ : SystemPacketMap) (packet_id : String) (confirmed : Bool)
    (keys : List PacketType) (t : PacketType) (r : Packet) (ht : t ∈ keys)
    (hs : slot packets_ t confirmed = some r) (hn : r.name = packet_id) :
    ∃ q, firstMatch packets_ packet_id confirmed keys = some q := by
  induction keys with
  | nil => simp at ht
  | cons u rest ih =>
    simp only [firstMatch]
    cases hsu : slot packets_ u confirmed with
    | none =>
      rcases List.mem_cons.mp ht with h | h
      · subst h; rw [hs] at hsu; cases hsu
      · exact ih h
    | some q =>
      by_cases hq : q.name = packet_id
      · exact ⟨q, by simp [hq]⟩
      · rcases List.mem_cons.mp ht with h | h
        · subst h; rw [hs] at hsu; cases hsu; exact absurd hn hq
        · simpa [hq] using ih h

/-- The loop returns the first match when its own type is one the code copies,
and nothing otherwise. -/
theorem GetPacketByIdLoop_eq (packets_ : SystemPacketMap) (packet_id : String)
    (confirmed : Bool) (keys : List PacketType) :
    GetPacketByIdLoop packets_ packet_id confirmed keys =
      (firstMatch packets_ packet_id confirmed keys).bind
        (fun r => if copyable r.packet_type then some r else none) := by
  induction keys with
  | nil => rfl
  | cons t rest ih =>
    simp only [GetPacketByIdLoop, firstMatch, slot]
    cases hentry : packets_ t with
    | none => simpa using ih
    | some info =>
      rcases info with ⟨pe, st⟩
      cases confirmed
      · cases pe with
        | none => simpa using ih
        | some q =>
          by_cases hq : q.name = packet_id
          · cases hc : q.packet_type <;> simp [hq, hc, copyable, IsSignature]
          · simpa [hq] using ih
      · cases st with
        | none => simpa using ih
        | some q =>
          by_cases hq : q.name = packet_id
          · cases hc : q.packet_type <;> simp [hq, hc, copyable, IsSignature]
          · simpa [hq] using ih

theorem SerialiseKeyringLoop_apply (packets_ : SystemPacketMap) (keys : List PacketType)
    (spm : SystemPacketMap) (u : PacketType) :
    SerialiseKeyringLoop packets_ keys spm u =
      match spm u with
      | some e => some e
      | none => if u ∈ keys then keyringEntry packets_ u else none := by
  induction keys generalizing spm with
  | nil => cases h : spm u <;> simp [SerialiseKeyringLoop, h]
  | cons t rest ih =>
    simp only [SerialiseKeyringLoop]
    cases hentry : packets_ t with
    | none =>
      simp only [ih]
      by_cases hu : u = t
      · subst hu
        cases h : spm u <;> simp [keyringEntry, hentry]
      · cases h : spm u <;> simp [hu]
    | some info =>
      by_cases hc : (IsSignature t && info.stored.isSome) = true
      · dsimp only
        rw [if_pos hc, ih]
        by_cases hu : u = t
        · subst hu
          cases h : spm u <;>
            simp [SystemPacketMap.insert, SystemPacketMap.set, h, keyringEntry, hentry, hc]
        · cases ht : spm t <;> cases h : spm u <;>
            simp [SystemPacketMap.insert, SystemPacketMap.set, ht, h, hu]
      · dsimp only
        rw [if_neg hc, ih]
        by_cases hu : u = t
        · subst hu
          cases h : spm u <;> simp [keyringEntry, hentry, hc]
        · cases h : spm u <;> simp [hu]

/-- The map written by `SerialiseKeyring` holds, for each type, its keyring
entry. -/
theorem SerialiseKeyring_apply (order : KeyOrder) (packets_ : SystemPacketMap) (t : PacketType) :
    SerialiseKeyring order packets_ t = keyringEntry packets_ t := by
  simp [SerialiseKeyring, SerialiseKeyringLoop_apply, SystemPacketMap.empty, order.complete t]

theorem keyringEntry_eq_some (packets_ : SystemPacketMap) (t : PacketType) (e : PacketInfo) :
    keyringEntry packets_ t = some e ↔
      IsSignature t = true ∧ packets_ t = some e ∧ ∃ v, e.stored = some v := by
  unfold keyringEntry
  cases hentry : packets_ t with
  | none => simp
  | some info =>
    rcases info with ⟨pe, st⟩
    cases st <;> cases hs : IsSignature t <;> simp
    · intro h; subst h; simp
    · intro h; subst h; simp

theorem ClearKeyringLoop_apply (keys : List PacketType) (packets_ : SystemPacketMap)
    (u : PacketType) :
    ClearKeyringLoop keys packets_ u =
      if u ∈ keys ∧ IsSignature u = true then none else packets_ u := by
  induction keys generalizing packets_ with
  | nil => simp [ClearKeyringLoop]
  | cons t rest ih =>
    simp only [ClearKeyringLoop]
    cases hentry : packets_ t with
    | none =>
      simp only [ih]
      by_cases hu : u = t
      · subst hu; simp [hentry]
      · simp [hu]
    | some info =>
      by_cases hs : IsSignature t = true
      · dsimp only
        rw [if_pos hs, ih]
        by_cases hu : u = t
        · subst hu; simp [SystemPacketMap.erase, hs]
        · simp [SystemPacketMap.erase, hu]
      · dsimp only
        rw [if_neg hs, ih]
        by_cases hu : u = t
        · subst hu; simp [hs]
        · simp [hu]

theorem ClearKeyring_apply (order : KeyOrder) (packets_ : SystemPacketMap) (t : PacketType) :
    ClearKeyring order packets_ t = if IsSignature t = true then none else packets_ t := by
  simp [ClearKeyring, ClearKeyringLoop_apply, order.complete t]

theorem mergeOver_nil (packets_ spm : SystemPacketMap) : mergeOver packets_ spm [] = packets_ := by
  funext u
  unfold mergeOver
  cases packets_ u <;> simp

theorem mergeOver_of_some (packets_ spm : SystemPacketMap) (keys : List PacketType)
    (u : PacketType) (e : PacketInfo) (h : packets_ u = some e) :
    mergeOver packets_ spm keys u = some e := by
  simp [mergeOver, h]

theorem mergeOver_of_not_mem (packets_ spm : SystemPacketMap) (keys : List PacketType)
    (u : PacketType) (h : u ∉ keys) : mergeOver packets_ spm keys u = packets_ u := by
  unfold mergeOver
  cases packets_ u <;> simp [h]

theorem mergeOver_of_none (packets_ spm : SystemPacketMap) (keys : List PacketType)
    (u : PacketType) (h : packets_ u = none) (hu : u ∈ keys) :
    mergeOver packets_ spm keys u = spm u := by
  simp [mergeOver, h, hu]

theorem collides_eq_false (packets_ spm : SystemPacketMap) (t : PacketType) :
    collides packets_ spm t = false ↔ (spm t = none ∨ packets_ t = none) := by
  unfold collides
  cases spm t <;> cases packets_ t <;> simp

theorem collides_eq_true (packets_ spm : SystemPacketMap) (t : PacketType) :
    collides packets_ spm t = true ↔ ((∃ e, spm t = some e) ∧ ∃ e, packets_ t = some e) := by
  unfold collides
  cases spm t <;> cases packets_ t <;> simp

/-- The loop of `ParseKeyring` runs through a stretch of keys without collision,
adding the keyring's entries for them. -/
theorem ParseKeyringLoop_append (spm : SystemPacketMap) (pre rest : List PacketType)
    (packets_ : SystemPacketMap) (hnodup : pre.Nodup)
    (hpre : ∀ t ∈ pre, collides packets_ spm t = false) :
    ParseKeyringLoop spm (pre ++ rest) packets_ =
      ParseKeyringLoop spm rest (mergeOver packets_ spm pre) := by
  induction pre generalizing packets_ with
  | nil => simp [mergeOver_nil]
  | cons t pre ih =>
    have hnot : t ∉ pre := (List.nodup_cons.mp hnodup).1
    have hnd : pre.Nodup := (List.nodup_cons.mp hnodup).2
    have ht := (collides_eq_false packets_ spm t).mp (hpre t (List.mem_cons_self _ _))
    rw [List.cons_append, ParseKeyringLoop]
    cases hspm : spm t with
    | none =>
      dsimp only
      rw [ih packets_ hnd (fun u hu => hpre u (List.mem_cons_of_mem _ hu))]
      congr 1
      funext u
      unfold mergeOver
      by_cases hu : u = t
      · subst hu; cases packets_ u <;> simp [hspm, hnot]
      · cases packets_ u <;> simp [hu]
    | some info =>
      have hst : packets_ t = none := by
        rcases ht with h | h
        · rw [hspm] at h; cases h
        · exact h
      dsimp only
      simp only [SystemPacketMap.insert, hst, if_true]
      rw [ih (packets_.set t info) hnd]
      · congr 1
        funext u
        unfold mergeOver
        by_cases hu : u = t
        · subst hu; simp [SystemPacketMap.set, hst, hspm]
        · cases h : packets_ u <;> simp [SystemPacketMap.set, hu, h]
      · intro u hu
        have hut : u ≠ t := fun h => hnot (h ▸ hu)
        have := hpre u (List.mem_cons_of_mem _ hu)
        simpa [collides, SystemPacketMap.set, hut] using this

theorem ParseKeyringLoop_no_collision (spm : SystemPacketMap) (keys : List PacketType)
    (packets_ : SystemPacketMap) (hnodup : keys.Nodup)
    (hkeys : ∀ t ∈ keys, collides packets_ spm t = false) :
    ParseKeyringLoop spm keys packets_ = (kSuccess, mergeOver packets_ spm keys) := by
  have h := ParseKeyringLoop_append spm keys [] packets_ hnodup hkeys
  simpa [ParseKeyringLoop] using h

theorem ParseKeyringLoop_first_collision (spm : SystemPacketMap) (pre post : List PacketType)
    (c : PacketType) (packets_ : SystemPacketMap) (hnodup : pre.Nodup)
    (hpre : ∀ t ∈ pre, collides packets_ spm t = false)
    (hc : collides packets_ spm c = true) :
    ParseKeyringLoop spm (pre ++ c :: post) packets_ =
      (kKeyringNotEmpty, mergeOver packets_ spm pre) := by
  rw [ParseKeyringLoop_append spm pre (c :: post) packets_ hnodup hpre]
  obtain ⟨⟨e, he⟩, ⟨e2, he2⟩⟩ := (collides_eq_true packets_ spm c).mp hc
  simp [ParseKeyringLoop, he, SystemPacketMap.insert, mergeOver_of_some _ _ _ _ _ he2]

/-- A list with an element satisfying a test splits at the first such
element. -/
theorem exists_first_split (p : PacketType → Bool) (l : List PacketType)
    (h : ∃ x ∈ l, p x = true) :
    ∃ pre c post, l = pre ++ c :: post ∧ (∀ x ∈ pre, p x = false) ∧ p c = true := by
  induction l with
  | nil => simp at h
  | cons a l ih =>
    cases hpa : p a with
    | true => exact ⟨[], a, l, rfl, by simp, hpa⟩
    | false =>
      obtain ⟨x, hx, hpx⟩ := h
      rcases List.mem_cons.mp hx with hxa | hxl
      · subst hxa; rw [hpa] at hpx; cases hpx
      · obtain ⟨pre, c, post, hl, hpre, hc⟩ := ih ⟨x, hxl, hpx⟩
        refine ⟨a :: pre, c, post, by simp [hl], ?_, hc⟩
        intro y hy
        rcases List.mem_cons.mp hy with hya | hyp
        · subst hya; exact hpa
        · exact hpre y hyp

theorem SystemPacketMap.isEmpty_iff (packets_ : SystemPacketMap) :
    packets_.isEmpty = true ↔ ∀ t, packets_ t = none := by
  simp [SystemPacketMap.isEmpty]

/-- The two ways `ParseKeyring` ends on a keyring that is not empty: with no
collision every entry of the keyring is added; otherwise the keys split at the
first collision and only the entries before it are added. -/
theorem ParseKeyring_cases (order : KeyOrder) (packets_ spm : SystemPacketMap)
    (hne : spm.isEmpty = false) :
    ((∀ t, collides packets_ spm t = false) ∧
        ParseKeyring order packets_ spm = (kSuccess, mergeOver packets_ spm order.keys)) ∨
      ∃ pre c post, order.keys = pre ++ c :: post ∧
        (∀ t ∈ pre, collides packets_ spm t = false) ∧ collides packets_ spm c = true ∧
        ParseKeyring order packets_ spm = (kKeyringNotEmpty, mergeOver packets_ spm pre) := by
  by_cases hcol : ∃ x ∈ order.keys, collides packets_ spm x = true
  · right
    obtain ⟨pre, c, post, hl, hpre, hc⟩ := exists_first_split _ _ hcol
    refine ⟨pre, c, post, hl, hpre, hc, ?_⟩
    have hnd : pre.Nodup := by
      have := order.nodup
      rw [hl] at this
      exact (List.nodup_append.mp this).1
    simp only [ParseKeyring, hne, Bool.false_eq_true, if_false, hl]
    exact ParseKeyringLoop_first_collision spm pre post c packets_ hnd hpre hc
  · left
    have hall : ∀ t, collides packets_ spm t = false := by
      intro t
      cases h : collides packets_ spm t
      · rfl
      · exact absurd ⟨t, order.complete t, h⟩ hcol
    refine ⟨hall, ?_⟩
    simp only [ParseKeyring, hne, Bool.false_eq_true, if_false]
    exact ParseKeyringLoop_no_collision spm order.keys packets_ order.nodup (fun t _ => hall t)

theorem collides_empty (spm : SystemPacketMap) (t : PacketType) :
    collides SystemPacketMap.empty spm t = false := by
  simp [collides, SystemPacketMap.empty]

/-- Parsing a keyring that is not empty into the empty store succeeds and gives
the keyring. -/
theorem ParseKeyring_into_empty (order : KeyOrder) (spm : SystemPacketMap)
    (hne : spm.isEmpty = false) :
    ParseKeyring order SystemPacketMap.empty spm = (kSuccess, spm) := by
  rcases ParseKeyring_cases order SystemPacketMap.empty spm hne with ⟨_, h⟩ | ⟨_, c, _, _, _, hc, _⟩
  · rw [h]
    congr 1
    funext u
    exact mergeOver_of_none _ _ _ _ rfl (order.complete u)
  · rw [collides_empty] at hc; cases hc

/-- Decoding inverts encoding of the blob. -/
theorem encodeKeyring_decodeKeyring (blob : KeyringBlob) :
    encodeKeyring (decodeKeyring blob) = blob := by
  funext t
  unfold encodeKeyring decodeKeyring
  cases blob t <;> rfl

/-- The map decoded from the output of `SerialiseKeyring` holds, for each
Signature type with a stored value, an entry with that stored value and no
pending value. -/
theorem decoded_apply (order : KeyOrder) (packets_ : SystemPacketMap) (t : PacketType) :
    decodeKeyring (encodeKeyring (SerialiseKeyring order packets_)) t =
      match slot packets_ t true with
      | some v => if IsSignature t = true then some { pending := none, stored := some v } else none
      | none => none := by
  simp only [decodeKeyring, encodeKeyring, SerialiseKeyring_apply, keyringEntry, slot]
  cases hentry : packets_ t with
  | none => simp
  | some e =>
    rcases e with ⟨pe, st⟩
    cases st <;> cases hs : IsSignature t <;> simp

theorem SystemPacketMap.isEmpty_eq_false (packets_ : SystemPacketMap) :
    packets_.isEmpty = false ↔ ∃ t e, packets_ t = some e := by
  rw [← Bool.not_eq_true, SystemPacketMap.isEmpty_iff]
  constructor
  · intro h
    by_contra hno
    apply h
    intro t
    cases ht : packets_ t with
    | none => rfl
    | some e => exact absurd ⟨t, e, ht⟩ hno
  · rintro ⟨t, e, ht⟩ h
    rw [h t] at ht
    cases ht

theorem decoded_isEmpty (order : KeyOrder) (packets_ : SystemPacketMap) :
    (decodeKeyring (encodeKeyring (SerialiseKeyring order packets_))).isEmpty = false ↔
      ∃ t, IsSignature t = true ∧ hasStored packets_ t := by
  rw [SystemPacketMap.isEmpty_eq_false]
  constructor
  · rintro ⟨t, e, he⟩
    rw [decoded_apply] at he
    cases hv : slot packets_ t true with
    | none => simp [hv] at he
    | some v =>
      cases hs : IsSignature t
      · simp [hv, hs] at he
      · exact ⟨t, hs, v, hv⟩
  · rintro ⟨t, hs, v, hv⟩
    exact ⟨t, { pending := none, stored := some v }, by rw [decoded_apply]; simp [hv, hs]⟩

/-- The result code of `ParseKeyring` on a keyring that is not empty tells
whether some type collides. -/
theorem ParseKeyring_code (order : KeyOrder) (packets_ spm : SystemPacketMap)
    (hne : spm.isEmpty = false) :
    ((ParseKeyring order packets_ spm).1 = kKeyringNotEmpty ∧
        ∃ t, collides packets_ spm t = true) ∨
      ((ParseKeyring order packets_ spm).1 = kSuccess ∧
        (∀ t, collides packets_ spm t = false) ∧
        (ParseKeyring order packets_ spm).2 = mergeOver packets_ spm order.keys) := by
  rcases ParseKeyring_cases order packets_ spm hne with ⟨hall, h⟩ | ⟨_, c, _, _, _, hc, h⟩
  · right; rw [h]; exact ⟨rfl, hall, rfl⟩
  · left; rw [h]; exact ⟨rfl, c, hc⟩

/-- Whatever the result code, `ParseKeyring` leaves every entry the store had as
it was. -/
theorem ParseKeyring_keeps (order : KeyOrder) (packets_ spm : SystemPacketMap)
    (t : PacketType) (e : PacketInfo) (h : packets_ t = some e) :
    (ParseKeyring order packets_ spm).2 t = some e := by
  cases hemp : spm.isEmpty with
  | true => simp [ParseKeyring, hemp, h]
  | false =>
    rcases ParseKeyring_cases order packets_ spm hemp with ⟨_, hr⟩ | ⟨_, _, _, _, _, _, hr⟩ <;>
      rw [hr] <;> exact mergeOver_of_some _ _ _ _ _ h

/-! ## Lemmas on stored values -/

theorem AddPendingPacket_stored (packets_ : SystemPacketMap) (packet : Option Packet)
    (t : PacketType) :
    slot (AddPendingPacket packets_ packet).2 t true = slot packets_ t true := by
  cases packet with
  | none => rfl
  | some p =>
    by_cases ht : t = p.packet_type
    · subst ht
      cases hentry : packets_ p.packet_type <;>
        simp [AddPendingPacket, hentry, slot, SystemPacketMap.set, PacketInfo.ofPending]
    · cases hentry : packets_ p.packet_type <;>
        simp [AddPendingPacket, hentry, slot, SystemPacketMap.set, ht]

theorem RevertPacket_stored (packets_ : SystemPacketMap) (packet_type t : PacketType) :
    slot (RevertPacket packets_ packet_type).2 t true = slot packets_ t true := by
  by_cases ht : t = packet_type
  · subst ht
    cases hentry : packets_ t <;> simp [RevertPacket, hentry, slot, SystemPacketMap.set]
  · cases hentry : packets_ packet_type <;>
      simp [RevertPacket, hentry, slot, SystemPacketMap.set, ht]

/-- `ConfirmPacket` either leaves the stored value of a type as it was, or it
succeeded on a packet of that type and the new stored value is the value that
was pending, the dependencies having been confirmed. -/
theorem ConfirmPacket_stored (packets_ : SystemPacketMap) (packet : Option Packet)
    (t : PacketType) :
    slot (ConfirmPacket packets_ packet).2 t true = slot packets_ t true ∨
      ∃ p pend, packet = some p ∧ p.packet_type = t ∧
        (ConfirmPacket packets_ packet).1 = kSuccess ∧
        slot packets_ t false = some pend ∧
        slot (ConfirmPacket packets_ packet).2 t true = some pend ∧
        dependencies_confirmed packets_ t = true := by
  cases packet with
  | none => exact Or.inl rfl
  | some p =>
    cases hentry : packets_ p.packet_type with
    | none => left; simp [ConfirmPacket, hentry]
    | some info =>
      cases hpending : info.pending with
      | none => left; rw [ConfirmPacket_no_pending packets_ p info hentry hpending]
      | some pend =>
        rw [ConfirmPacket_pending packets_ p pend info hentry hpending]
        cases hd : dependencies_confirmed packets_ p.packet_type
        · left; simp
        · cases he : pend.Equals p
          · left; simp
          · by_cases ht : t = p.packet_type
            · right
              subst ht
              refine ⟨p, pend, rfl, rfl, by simp, ?_, ?_, hd⟩
              · simp [slot, hentry, hpending]
              · simp [slot, SystemPacketMap.set]
            · left
              simp [slot, SystemPacketMap.set, ht]

theorem DeletePacket_apply (packets_ : SystemPacketMap) (packet_type t : PacketType) :
    (DeletePacket packets_ packet_type).2 t = none ∨
      (DeletePacket packets_ packet_type).2 t = packets_ t := by
  cases hentry : packets_ packet_type with
  | none => right; simp [DeletePacket, hentry]
  | some info =>
    by_cases ht : t = packet_type
    · left; simp [DeletePacket, hentry, SystemPacketMap.erase, ht]
    · right; simp [DeletePacket, hentry, SystemPacketMap.erase, ht]

theorem slot_of_none (packets_ : SystemPacketMap) (t : PacketType) (confirmed : Bool)
    (h : packets_ t = none) : slot packets_ t confirmed = none := by
  simp [slot, h]

theorem slot_congr (a b : SystemPacketMap) (t : PacketType) (confirmed : Bool)
    (h : a t = b t) : slot a t confirmed = slot b t confirmed := by
  simp [slot, h]

theorem entry_of_slot (packets_ : SystemPacketMap) (t : PacketType) (confirmed : Bool)
    (v : Packet) (h : slot packets_ t confirmed = some v) : ∃ e, packets_ t = some e := by
  cases hentry : packets_ t with
  | none => simp [slot, hentry] at h
  | some e => exact ⟨e, rfl⟩

theorem hasStored_of_IsConfirmed (packets_ : SystemPacketMap) (t : PacketType)
    (h : IsConfirmed packets_ t = true) : hasStored packets_ t := by
  obtain ⟨info, hentry, _, v, hv⟩ := (IsConfirmed_iff_spec packets_ t).mp h
  exact ⟨v, by simp [slot, hentry, hv]⟩

/-- None of the three calls removes a stored value. -/
theorem PendingCall.run_keeps_stored (packets_ : SystemPacketMap) (call : PendingCall)
    (d : PacketType) (h : hasStored packets_ d) : hasStored (PendingCall.run packets_ call) d := by
  obtain ⟨v, hv⟩ := h
  cases call with
  | add packet => exact ⟨v, (AddPendingPacket_stored packets_ packet d).trans hv⟩
  | revert packet_type => exact ⟨v, (RevertPacket_stored packets_ packet_type d).trans hv⟩
  | confirm packet =>
    rcases ConfirmPacket_stored packets_ packet d with h | ⟨_, pend, _, _, _, _, hst, _⟩
    · exact ⟨v, h.trans hv⟩
    · exact ⟨pend, hst⟩

/-- A type that has a stored value after one of the three calls had one before,
or its dependencies were confirmed before the call. -/
theorem PendingCall.run_new_stored (packets_ : SystemPacketMap) (call : PendingCall)
    (t : PacketType) (h : hasStored (PendingCall.run packets_ call) t) :
    hasStored packets_ t ∨ dependencies_confirmed packets_ t = true := by
  obtain ⟨v, hv⟩ := h
  cases call with
  | add packet => exact Or.inl ⟨v, (AddPendingPacket_stored packets_ packet t).symm.trans hv⟩
  | revert packet_type =>
    exact Or.inl ⟨v, (RevertPacket_stored packets_ packet_type t).symm.trans hv⟩
  | confirm packet =>
    rcases ConfirmPacket_stored packets_ packet t with h | ⟨_, _, _, _, _, _, _, hd⟩
    · exact Or.inl ⟨v, h.symm.trans hv⟩
    · exact Or.inr hd

/-- The closure of stored values under the Dependency Table is kept by each of
the three calls, hence by every sequence of them. -/
theorem closure_foldl (calls : List PendingCall) (packets_ : SystemPacketMap)
    (h : ∀ t d, hasStored packets_ t → d ∈ prerequisites t → hasStored packets_ d) :
    ∀ t d, hasStored (calls.foldl PendingCall.run packets_) t → d ∈ prerequisites t →
      hasStored (calls.foldl PendingCall.run packets_) d := by
  induction calls generalizing packets_ with
  | nil => exact h
  | cons call rest ih =>
    simp only [List.foldl_cons]
    apply ih
    intro t d ht hd
    apply PendingCall.run_keeps_stored
    rcases PendingCall.run_new_stored packets_ call t ht with hold | hdep
    · exact h t d hold hd
    · exact hasStored_of_IsConfirmed packets_ d
        ((dependencies_confirmed_iff packets_ t).mp hdep d hd)

/-! ## Theorems -/

/-- C1: for every store and every packet `p` of type `T` whose entry has a
pending value equal to `p`, `ConfirmPacket(p)` returns `kSuccess` if and only
if every prerequisite type of `T` in the Dependency Table is confirmed in that
store, where a type is confirmed when its entry exists, has no pending value
and has a stored value (so a prerequisite without an entry is not confirmed). -/
theorem ConfirmPacket_success_iff_prerequisites (packets_ : SystemPacketMap) (p : Packet)
    (info : PacketInfo) (hentry : packets_ p.packet_type = some info)
    (hpending : info.pending = some p) :
    (ConfirmPacket packets_ (some p)).1 = kSuccess ↔
      ∀ d ∈ prerequisites p.packet_type, ConfirmedSpec packets_ d := by
  rw [ConfirmPacket_pending packets_ p p info hentry hpending]
  simp only [← IsConfirmed_iff_spec, ← dependencies_confirmed_iff]
  cases hd : dependencies_confirmed packets_ p.packet_type <;> simp [Packet.Equals]

/-- Witness for C1, on the scenario of the spec: with AnMaid confirmed and
Maid, Pmid pending, confirming Pmid fails with `kMissingDependentPackets`,
confirming Maid succeeds, and then confirming Pmid succeeds. -/
theorem ConfirmPacket_success_iff_prerequisites_witness :
    ((ConfirmPacket storeMaid (some (pkt MAID "maid"))).1 = kSuccess ↔
        ∀ d ∈ prerequisites (pkt MAID "maid").packet_type, ConfirmedSpec storeMaid d) ∧
      (ConfirmPacket storeMaid (some (pkt PMID "pmid"))).1 = kMissingDependentPackets ∧
      (ConfirmPacket storeMaid (some (pkt MAID "maid"))).1 = kSuccess ∧
      (ConfirmPacket (ConfirmPacket storeMaid (some (pkt MAID "maid"))).2
        (some (pkt PMID "pmid"))).1 = kSuccess :=
  ⟨ConfirmPacket_success_iff_prerequisites storeMaid (pkt MAID "maid")
      { pending := some (pkt MAID "maid"), stored := none } (by decide) rfl,
    by decide, by decide, by decide⟩

/-- The result code of `ConfirmPacket` is the one the spec's ordered checks
give. -/
theorem ConfirmPacket_code_eq_spec (packets_ : SystemPacketMap) (packet : Option Packet) :
    (ConfirmPacket packets_ packet).1 = confirmResultSpec packets_ packet := by
  cases packet with
  | none => rfl
  | some p =>
    cases hentry : packets_ p.packet_type with
    | none => simp [ConfirmPacket, confirmResultSpec, hentry]
    | some info =>
      cases hpending : info.pending with
      | none =>
        rw [ConfirmPacket_no_pending packets_ p info hentry hpending]
        simp [confirmResultSpec, hentry, hpending]
      | some pend =>
        rw [ConfirmPacket_pending packets_ p pend info hentry hpending]
        have hdep : (prerequisites p.packet_type).any (fun d => !Confirmed packets_ d) =
            !dependencies_confirmed packets_ p.packet_type := by
          cases hd : dependencies_confirmed packets_ p.packet_type
          · have h := (dependencies_confirmed_iff packets_ p.packet_type).not.mp (by simp [hd])
            simpa [Confirmed] using h
          · have h := (dependencies_confirmed_iff packets_ p.packet_type).mp hd
            simpa [Confirmed] using h
        simp only [confirmResultSpec, hentry, hpending, hdep]
        cases hd : dependencies_confirmed packets_ p.packet_type
        · simp
        · by_cases he : pend = p
          · simp [Packet.Equals, he]
          · simp [Packet.Equals, he]

/-- C2: for every store and every input, the result code of `ConfirmPacket` is
decided by these checks in this order: `kNullPointer` if the packet is absent;
`kNoPendingPacket` if the type has no entry; without a pending value,
`kSuccess` when stored equals the packet and `kNoPendingPacket` otherwise;
`kMissingDependentPackets` if some prerequisite is not confirmed;
`kPacketsNotEqual` if the packet differs from the pending value; `kSuccess`
otherwise.  In particular, with a pending value, an unconfirmed prerequisite
and a packet that differs from pending, the code is
`kMissingDependentPackets`. -/
theorem ConfirmPacket_result_order (packets_ : SystemPacketMap) (packet : Option Packet) :
    (ConfirmPacket packets_ packet).1 = confirmResultSpec packets_ packet ∧
      ∀ (p pend : Packet) (info : PacketInfo) (d : PacketType), packet = some p →
        packets_ p.packet_type = some info → info.pending = some pend →
        d ∈ prerequisites p.packet_type → Confirmed packets_ d = false → pend ≠ p →
        (ConfirmPacket packets_ packet).1 = kMissingDependentPackets := by
  refine ⟨ConfirmPacket_code_eq_spec packets_ packet, ?_⟩
  intro p pend info d hp hentry hpending hd hconf _
  subst hp
  rw [ConfirmPacket_pending packets_ p pend info hentry hpending]
  have hdep : dependencies_confirmed packets_ p.packet_type = false := by
    cases hdc : dependencies_confirmed packets_ p.packet_type
    · rfl
    · have h := (dependencies_confirmed_iff packets_ p.packet_type).mp hdc d hd
      simp [Confirmed] at hconf
      simp [hconf] at h
  simp [hdep]

/-- Witness for C2: Pmid is pending, its prerequisite Maid is not confirmed,
and the packet offered differs from the pending one. -/
theorem ConfirmPacket_result_order_witness :
    (ConfirmPacket storeMaid (some (pkt PMID "other"))).1 = kMissingDependentPackets ∧
      confirmResultSpec storeMaid (some (pkt PMID "other")) = kMissingDependentPackets :=
  ⟨(ConfirmPacket_result_order storeMaid (some (pkt PMID "other"))).2 (pkt PMID "other")
      (pkt PMID "pmid") { pending := some (pkt PMID "pmid"), stored := none } MAID rfl
      (by decide) rfl (by decide) (by decide) (by decide),
    by decide⟩

/-- C3: whenever `ConfirmPacket(p)` returns `kSuccess` for a packet `p` of type
`T` whose entry held a pending value before the call, after the call the
entry's stored value is the value that was pending, its pending value is
absent, `Confirmed(T)` is true, and the entry of every other type is as it was
before the call. -/
theorem ConfirmPacket_success_effect (packets_ : SystemPacketMap) (p pend : Packet)
    (info : PacketInfo) (hentry : packets_ p.packet_type = some info)
    (hpending : info.pending = some pend)
    (hsuccess : (ConfirmPacket packets_ (some p)).1 = kSuccess) :
    (ConfirmPacket packets_ (some p)).2 p.packet_type =
        some { pending := none, stored := some pend } ∧
      Confirmed (ConfirmPacket packets_ (some p)).2 p.packet_type = true ∧
      ∀ t, t ≠ p.packet_type → (ConfirmPacket packets_ (some p)).2 t = packets_ t := by
  rw [ConfirmPacket_pending packets_ p pend info hentry hpending] at hsuccess ⊢
  cases hd : dependencies_confirmed packets_ p.packet_type
  · simp [hd] at hsuccess
  · cases he : pend.Equals p
    · simp [hd, he] at hsuccess
    · simp only [hd, he, Bool.not_true, Bool.false_eq_true, if_false]
      refine ⟨SystemPacketMap.set_same _ _ _, ?_, ?_⟩
      · simp [Confirmed, IsConfirmed, SystemPacketMap.set_same]
      · intro t ht
        exact SystemPacketMap.set_other _ _ _ _ ht

/-- Witness for C3: Maid is pending over a confirmed AnMaid. -/
theorem ConfirmPacket_success_effect_witness :
    (ConfirmPacket storeMaid (some (pkt MAID "maid"))).1 = kSuccess ∧
      (ConfirmPacket storeMaid (some (pkt MAID "maid"))).2 MAID =
        some { pending := none, stored := some (pkt MAID "maid") } ∧
      Confirmed (ConfirmPacket storeMaid (some (pkt MAID "maid"))).2 MAID = true ∧
      ∀ t, t ≠ MAID → (ConfirmPacket storeMaid (some (pkt MAID "maid"))).2 t = storeMaid t :=
  ⟨by decide, ConfirmPacket_success_effect storeMaid (pkt MAID "maid") (pkt MAID "maid")
    { pending := some (pkt MAID "maid"), stored := none } (by decide) rfl (by decide)⟩

/-- C4: whenever `ConfirmPacket` returns a code other than `kSuccess`, the
whole store is unchanged. -/
theorem ConfirmPacket_failure_unchanged (packets_ : SystemPacketMap) (packet : Option Packet)
    (hfail : (ConfirmPacket packets_ packet).1 ≠ kSuccess) :
    (ConfirmPacket packets_ packet).2 = packets_ := by
  cases packet with
  | none => rfl
  | some p =>
    cases hentry : packets_ p.packet_type with
    | none => simp [ConfirmPacket, hentry]
    | some info =>
      cases hpending : info.pending with
      | none => rw [ConfirmPacket_no_pending packets_ p info hentry hpending]
      | some pend =>
        rw [ConfirmPacket_pending packets_ p pend info hentry hpending] at hfail ⊢
        cases hd : dependencies_confirmed packets_ p.packet_type
        · simp
        · cases he : pend.Equals p
          · simp
          · simp [hd, he] at hfail

/-- Witness for C4: a Pmid packet that differs from the pending one, offered
after Maid has been confirmed, is refused with `kPacketsNotEqual`. -/
theorem ConfirmPacket_failure_unchanged_witness :
    (ConfirmPacket (ConfirmPacket storeMaid (some (pkt MAID "maid"))).2
        (some (pkt PMID "other"))).1 = kPacketsNotEqual ∧
      (ConfirmPacket (ConfirmPacket storeMaid (some (pkt MAID "maid"))).2
        (some (pkt PMID "other"))).2 = (ConfirmPacket storeMaid (some (pkt MAID "maid"))).2 :=
  ⟨by decide, ConfirmPacket_failure_unchanged _ (some (pkt PMID "other")) (by decide)⟩

/-- C5, as the spec states it, fails: in a store built by the store's own
operations, Mid is confirmed, a new AnMid is pending (so AnMid is no longer
confirmed), and `ConfirmPacket` of the stored Mid packet returns `kSuccess`
although AnMid, a prerequisite of Mid, is not confirmed. -/
theorem ConfirmPacket_success_unconfirmed_prerequisite :
    storeMidStale MID = some { pending := none, stored := some (pkt MID "mid") } ∧
      (ConfirmPacket storeMidStale (some (pkt MID "mid"))).1 = kSuccess ∧
      ANMID ∈ prerequisites (pkt MID "mid").packet_type ∧
      Confirmed storeMidStale ANMID = false ∧
      ¬ (∀ d ∈ prerequisites (pkt MID "mid").packet_type, Confirmed storeMidStale d = true) := by
  refine ⟨by decide, by decide, by decide, by decide, ?_⟩
  intro h
  exact absurd (h ANMID (by decide)) (by decide)

/-- C5, amended: if `ConfirmPacket(p)` returns `kSuccess` and the entry for the
type of `p` held a pending value before the call, then every prerequisite type
of that type is confirmed in the store at the call.  A call made when the entry
has no pending value and its stored value equals `p` returns `kSuccess`
whatever the state of the prerequisites. -/
theorem ConfirmPacket_success_prerequisites_of_pending (packets_ : SystemPacketMap)
    (p : Packet) (info : PacketInfo) (hentry : packets_ p.packet_type = some info) :
    (∀ pend, info.pending = some pend → (ConfirmPacket packets_ (some p)).1 = kSuccess →
        ∀ d ∈ prerequisites p.packet_type, Confirmed packets_ d = true) ∧
      (info.pending = none → info.stored = some p →
        (ConfirmPacket packets_ (some p)).1 = kSuccess) := by
  constructor
  · intro pend hpending hsuccess
    rw [ConfirmPacket_pending packets_ p pend info hentry hpending] at hsuccess
    cases hd : dependencies_confirmed packets_ p.packet_type
    · simp [hd] at hsuccess
    · exact (dependencies_confirmed_iff packets_ p.packet_type).mp hd
  · intro hpending hstored
    rw [ConfirmPacket_no_pending packets_ p info hentry hpending]
    simp [hstored]

/-- Witness for the amended C5: Maid pending over a confirmed AnMaid. -/
theorem ConfirmPacket_success_prerequisites_of_pending_witness :
    (ConfirmPacket storeMaid (some (pkt MAID "maid"))).1 = kSuccess ∧
      (∀ d ∈ prerequisites (pkt MAID "maid").packet_type, Confirmed storeMaid d = true) ∧
      (ConfirmPacket storeMidStale (some (pkt MID "mid"))).1 = kSuccess :=
  ⟨by decide, (ConfirmPacket_success_prerequisites_of_pending storeMaid (pkt MAID "maid")
      { pending := some (pkt MAID "maid"), stored := none } (by decide)).1
      (pkt MAID "maid") rfl (by decide),
    (ConfirmPacket_success_prerequisites_of_pending storeMidStale (pkt MID "mid")
      { pending := none, stored := some (pkt MID "mid") } (by decide)).2 rfl rfl⟩

/-- C6: `ConfirmPacket` is idempotent.  In a store in which the entry for the
type of `p` has no pending value and a stored value equal to `p`,
`ConfirmPacket(p)` returns `kSuccess` and leaves the store unchanged; and for
every store and packet, if a first `ConfirmPacket` returns `kSuccess` then an
immediately following one with the same packet returns `kSuccess` and leaves
the store as the first call left it. -/
theorem ConfirmPacket_idempotent (packets_ : SystemPacketMap) (packet : Option Packet) :
    (∀ (p : Packet) (info : PacketInfo), packet = some p → packets_ p.packet_type = some info →
        info.pending = none → info.stored = some p →
        ConfirmPacket packets_ packet = (kSuccess, packets_)) ∧
      ((ConfirmPacket packets_ packet).1 = kSuccess →
        ConfirmPacket (ConfirmPacket packets_ packet).2 packet =
          (kSuccess, (ConfirmPacket packets_ packet).2)) := by
  have key : ∀ (s : SystemPacketMap) (p : Packet) (info : PacketInfo),
      s p.packet_type = some info → info.pending = none → info.stored = some p →
      ConfirmPacket s (some p) = (kSuccess, s) := by
    intro s p info hentry hpending hstored
    rw [ConfirmPacket_no_pending s p info hentry hpending]
    simp [hstored]
  constructor
  · intro p info hp hentry hpending hstored
    subst hp
    exact key packets_ p info hentry hpending hstored
  · intro hsuccess
    cases packet with
    | none => simp [ConfirmPacket] at hsuccess
    | some p =>
      cases hentry : packets_ p.packet_type with
      | none => simp [ConfirmPacket, hentry] at hsuccess
      | some info =>
        cases hpending : info.pending with
        | none =>
          rw [ConfirmPacket_no_pending packets_ p info hentry hpending] at hsuccess ⊢
          by_cases hs : info.stored = some p
          · exact key packets_ p info hentry hpending hs
          · simp [hs] at hsuccess
        | some pend =>
          rw [ConfirmPacket_pending packets_ p pend info hentry hpending] at hsuccess ⊢
          cases hd : dependencies_confirmed packets_ p.packet_type
          · simp [hd] at hsuccess
          · cases he : pend.Equals p
            · simp [hd, he] at hsuccess
            · have hpe : pend = p := (Packet.Equals_iff pend p).mp he
              simp only [Bool.not_true, Bool.false_eq_true, if_false]
              exact key _ p { pending := none, stored := some pend }
                (SystemPacketMap.set_same _ _ _) rfl (by simp [hpe])

/-- Witness for C6: confirming the pending Maid, then confirming it again. -/
theorem ConfirmPacket_idempotent_witness :
    (ConfirmPacket storeMaid (some (pkt MAID "maid"))).1 = kSuccess ∧
      ConfirmPacket (ConfirmPacket storeMaid (some (pkt MAID "maid"))).2
          (some (pkt MAID "maid")) =
        (kSuccess, (ConfirmPacket storeMaid (some (pkt MAID "maid"))).2) ∧
      storeMidStale MID = some { pending := none, stored := some (pkt MID "mid") } ∧
      ConfirmPacket storeMidStale (some (pkt MID "mid")) = (kSuccess, storeMidStale) :=
  ⟨by decide, (ConfirmPacket_idempotent storeMaid (some (pkt MAID "maid"))).2 (by decide),
    by decide, (ConfirmPacket_idempotent storeMidStale (some (pkt MID "mid"))).1 (pkt MID "mid")
      { pending := none, stored := some (pkt MID "mid") } rfl (by decide) rfl rfl⟩

/-- C7: for every store and every non-null packet `p` of type `T`,
`AddPendingPacket(p)` followed by `RevertPacket(T)` returns true both times and
leaves `T` with no pending value and with the stored value it had before the
add (absent if it had none); every other type's entry is unchanged. -/
theorem AddPendingPacket_then_RevertPacket (packets_ : SystemPacketMap) (p : Packet) :
    (AddPendingPacket packets_ (some p)).1 = true ∧
      (RevertPacket (AddPendingPacket packets_ (some p)).2 p.packet_type).1 = true ∧
      (RevertPacket (AddPendingPacket packets_ (some p)).2 p.packet_type).2 p.packet_type =
        some { pending := none, stored := slot packets_ p.packet_type true } ∧
      ∀ t, t ≠ p.packet_type →
        (RevertPacket (AddPendingPacket packets_ (some p)).2 p.packet_type).2 t = packets_ t := by
  cases hentry : packets_ p.packet_type with
  | none =>
    refine ⟨?_, ?_, ?_, ?_⟩
    · simp [AddPendingPacket, hentry]
    · simp [AddPendingPacket, hentry, RevertPacket, SystemPacketMap.set]
    · simp [AddPendingPacket, hentry, RevertPacket, SystemPacketMap.set, slot,
        PacketInfo.ofPending]
    · intro t ht
      simp [AddPendingPacket, hentry, RevertPacket, SystemPacketMap.set, ht]
  | some info =>
    refine ⟨?_, ?_, ?_, ?_⟩
    · simp [AddPendingPacket, hentry]
    · simp [AddPendingPacket, hentry, RevertPacket, SystemPacketMap.set]
    · simp [AddPendingPacket, hentry, RevertPacket, SystemPacketMap.set, slot,
        PacketInfo.ofPending]
    · intro t ht
      simp [AddPendingPacket, hentry, RevertPacket, SystemPacketMap.set, ht]

/-- Witness for C7: a new AnMaid is proposed over the confirmed one and then
reverted; the confirmed AnMaid is back and Maid is untouched. -/
theorem AddPendingPacket_then_RevertPacket_witness :
    (RevertPacket (AddPendingPacket storeMaid (some (pkt ANMAID "new"))).2 ANMAID).2 ANMAID =
        some { pending := none, stored := some (pkt ANMAID "anmaid") } ∧
      (RevertPacket (AddPendingPacket storeMaid (some (pkt ANMAID "new"))).2 ANMAID).2 MAID =
        storeMaid MAID :=
  ⟨(AddPendingPacket_then_RevertPacket storeMaid (pkt ANMAID "new")).2.2.1.trans (by decide),
    (AddPendingPacket_then_RevertPacket storeMaid (pkt ANMAID "new")).2.2.2 MAID (by decide)⟩

/-- C8: `AddPendingPacket` returns false and leaves the store unchanged when
the packet is absent; for a non-null packet `p` of type `T` it returns true,
and afterwards the entry for `T` has `pending = p` and the stored value it had
before (absent if there was no entry), every other type's entry is unchanged,
and `Confirmed(T)` is false. -/
theorem AddPendingPacket_effect (packets_ : SystemPacketMap) :
    AddPendingPacket packets_ none = (false, packets_) ∧
      ∀ p : Packet,
        (AddPendingPacket packets_ (some p)).1 = true ∧
        (AddPendingPacket packets_ (some p)).2 p.packet_type =
          some { pending := some p, stored := slot packets_ p.packet_type true } ∧
        (∀ t, t ≠ p.packet_type → (AddPendingPacket packets_ (some p)).2 t = packets_ t) ∧
        Confirmed (AddPendingPacket packets_ (some p)).2 p.packet_type = false := by
  refine ⟨rfl, ?_⟩
  intro p
  cases hentry : packets_ p.packet_type with
  | none =>
    refine ⟨?_, ?_, ?_, ?_⟩
    · simp [AddPendingPacket, hentry]
    · simp [AddPendingPacket, hentry, SystemPacketMap.set, slot, PacketInfo.ofPending]
    · intro t ht
      simp [AddPendingPacket, hentry, SystemPacketMap.set, ht]
    · simp [AddPendingPacket, hentry, SystemPacketMap.set, Confirmed, IsConfirmed,
        PacketInfo.ofPending]
  | some info =>
    refine ⟨?_, ?_, ?_, ?_⟩
    · simp [AddPendingPacket, hentry]
    · simp [AddPendingPacket, hentry, SystemPacketMap.set, slot, PacketInfo.ofPending]
    · intro t ht
      simp [AddPendingPacket, hentry, SystemPacketMap.set, ht]
    · simp [AddPendingPacket, hentry, SystemPacketMap.set, Confirmed, IsConfirmed,
        PacketInfo.ofPending]

/-- Witness for C8: proposing a new AnMaid over the confirmed one keeps the
stored value, un-confirms AnMaid and leaves Maid untouched. -/
theorem AddPendingPacket_effect_witness :
    Confirmed storeMaid ANMAID = true ∧
      (AddPendingPacket storeMaid (some (pkt ANMAID "new"))).2 ANMAID =
        some { pending := some (pkt ANMAID "new"), stored := some (pkt ANMAID "anmaid") } ∧
      Confirmed (AddPendingPacket storeMaid (some (pkt ANMAID "new"))).2 ANMAID = false ∧
      (AddPendingPacket storeMaid (some (pkt ANMAID "new"))).2 MAID = storeMaid MAID :=
  ⟨by decide,
    ((AddPendingPacket_effect storeMaid).2 (pkt ANMAID "new")).2.1.trans (by decide),
    ((AddPendingPacket_effect storeMaid).2 (pkt ANMAID "new")).2.2.2,
    ((AddPendingPacket_effect storeMaid).2 (pkt ANMAID "new")).2.2.1 MAID (by decide)⟩

/-- C9: `RevertPacket(type)` returns false if and only if the store has no
entry for the type, and then the store is unchanged; otherwise it returns
true, the entry's pending value becomes absent, its stored value is unchanged
and every other type's entry is unchanged.  Applying it twice gives the same
store and the same result as applying it once. -/
theorem RevertPacket_effect (packets_ : SystemPacketMap) (packet_type : PacketType) :
    ((RevertPacket packets_ packet_type).1 = false ↔ packets_ packet_type = none) ∧
      (packets_ packet_type = none → (RevertPacket packets_ packet_type).2 = packets_) ∧
      (∀ info, packets_ packet_type = some info →
        (RevertPacket packets_ packet_type).1 = true ∧
        (RevertPacket packets_ packet_type).2 packet_type =
          some { pending := none, stored := info.stored } ∧
        ∀ t, t ≠ packet_type → (RevertPacket packets_ packet_type).2 t = packets_ t) ∧
      RevertPacket (RevertPacket packets_ packet_type).2 packet_type =
        RevertPacket packets_ packet_type := by
  cases hentry : packets_ packet_type with
  | none => simp [RevertPacket, hentry]
  | some info =>
    refine ⟨by simp [RevertPacket, hentry], by simp, ?_, ?_⟩
    · intro info2 h2
      cases h2
      refine ⟨?_, ?_, ?_⟩ <;> simp only [RevertPacket, hentry, SystemPacketMap.set_same]
      intro t ht
      simp [SystemPacketMap.set, ht]
    · simp only [RevertPacket, hentry, SystemPacketMap.set_same]
      congr 1
      funext u
      by_cases hu : u = packet_type <;> simp [SystemPacketMap.set, hu]

/-- Witness for C9: reverting the pending Pmid, and reverting a type that has
no entry. -/
theorem RevertPacket_effect_witness :
    ((RevertPacket storeMaid PMID).1 = true ∧
        (RevertPacket storeMaid PMID).2 PMID = some { pending := none, stored := none } ∧
        ∀ t, t ≠ PMID → (RevertPacket storeMaid PMID).2 t = storeMaid t) ∧
      (RevertPacket storeMaid MID).2 = storeMaid :=
  ⟨(RevertPacket_effect storeMaid PMID).2.2.1
      { pending := some (pkt PMID "pmid"), stored := none } (by decide),
    (RevertPacket_effect storeMaid MID).2.1 (by decide)⟩

/-- C12: for every store, the map that `SerialiseKeyring` encodes has an entry
for a type if and only if the type is a Signature type and the store's entry for
it has a stored value; the entry encoded is the store's entry, so its stored
value is the store's stored value; and `SerialiseKeyring` leaves the store
unchanged. -/
theorem SerialiseKeyring_entries (order : KeyOrder) (packets_ : SystemPacketMap)
    (t : PacketType) :
    ((∃ e, SerialiseKeyring order packets_ t = some e) ↔
        (IsSignature t = true ∧ ∃ v, slot packets_ t true = some v)) ∧
      (∀ e, SerialiseKeyring order packets_ t = some e →
        packets_ t = some e ∧
          slot (SerialiseKeyring order packets_) t true = slot packets_ t true) ∧
      Operation.run order packets_ Operation.serialiseKeyring = packets_ := by
  refine ⟨?_, ?_, rfl⟩
  · rw [SerialiseKeyring_apply]
    constructor
    · rintro ⟨e, he⟩
      obtain ⟨hs, hentry, v, hv⟩ := (keyringEntry_eq_some packets_ t e).mp he
      exact ⟨hs, v, by simp [slot, hentry, hv]⟩
    · rintro ⟨hs, v, hv⟩
      cases hentry : packets_ t with
      | none => simp [slot, hentry] at hv
      | some e =>
        refine ⟨e, (keyringEntry_eq_some packets_ t e).mpr ⟨hs, hentry, v, ?_⟩⟩
        simpa [slot, hentry] using hv
  · intro e he
    have he2 := he
    rw [SerialiseKeyring_apply] at he2
    obtain ⟨_, hentry, _⟩ := (keyringEntry_eq_some packets_ t e).mp he2
    exact ⟨hentry, by simp [slot, he, hentry]⟩

/-- Witness for C12: of the entries of `storeMixed` the keyring holds the
confirmed AnMaid and Maid and neither the pending Mid nor the pending Pmid. -/
theorem SerialiseKeyring_entries_witness :
    SerialiseKeyring enumOrder storeMixed ANMAID = storeMixed ANMAID ∧
      storeMixed MAID = some { pending := none, stored := some (pkt MAID "maid") } ∧
      SerialiseKeyring enumOrder storeMixed MID = none ∧
      SerialiseKeyring enumOrder storeMixed PMID = none :=
  ⟨by decide,
    ((SerialiseKeyring_entries enumOrder storeMixed MAID).2.1
      { pending := none, stored := some (pkt MAID "maid") } (by decide)).1,
    by decide, by decide⟩

/-- C13, as the spec states it, fails: AnMaid has a stored value and a pending
update, so it is not confirmed, and it is a Signature type; `SerialiseKeyring`
encodes its entry all the same. -/
theorem SerialiseKeyring_holds_unconfirmed_entry :
    storeBoth ANMAID =
        some { pending := some (pkt ANMAID "new"), stored := some (pkt ANMAID "anmaid") } ∧
      IsSignature ANMAID = true ∧
      Confirmed storeBoth ANMAID = false ∧
      SerialiseKeyring enumOrder storeBoth ANMAID = storeBoth ANMAID := by
  decide

/-- C13, amended: for every store, every entry in the map encoded by
`SerialiseKeyring` is of a Signature type and is the store's entry, with a
stored value; an entry of another type or without a stored value is never
encoded; and every Signature-type entry with a stored value is encoded,
confirmed or not (whether or not it also has a pending value). -/
theorem SerialiseKeyring_signature_stored (order : KeyOrder) (packets_ : SystemPacketMap)
    (t : PacketType) :
    (∀ e, SerialiseKeyring order packets_ t = some e →
        IsSignature t = true ∧ packets_ t = some e ∧ ∃ v, e.stored = some v) ∧
      (IsSignature t = false ∨ slot packets_ t true = none →
        SerialiseKeyring order packets_ t = none) ∧
      (∀ e v, IsSignature t = true → packets_ t = some e → e.stored = some v →
        SerialiseKeyring order packets_ t = some e) := by
  rw [SerialiseKeyring_apply]
  refine ⟨fun e he => (keyringEntry_eq_some packets_ t e).mp he, ?_, ?_⟩
  · intro h
    cases hk : keyringEntry packets_ t with
    | none => rfl
    | some e =>
      obtain ⟨hs, hentry, v, hv⟩ := (keyringEntry_eq_some packets_ t e).mp hk
      rcases h with h | h
      · rw [hs] at h; cases h
      · simp [slot, hentry, hv] at h
  · intro e v hs hentry hv
    exact (keyringEntry_eq_some packets_ t e).mpr ⟨hs, hentry, v, hv⟩

/-- Witness for the amended C13: the pending Pmid is not encoded, the AnMaid
entry with both values is. -/
theorem SerialiseKeyring_signature_stored_witness :
    SerialiseKeyring enumOrder storeBoth PMID = none ∧
      SerialiseKeyring enumOrder storeBoth ANMAID =
        some { pending := some (pkt ANMAID "new"), stored := some (pkt ANMAID "anmaid") } :=
  ⟨(SerialiseKeyring_signature_stored enumOrder storeBoth PMID).2.1 (Or.inl (by decide)),
    (SerialiseKeyring_signature_stored enumOrder storeBoth ANMAID).2.2 _ (pkt ANMAID "anmaid")
      (by decide) (by decide) rfl⟩

/-- C14, as the spec states it, fails twice.  For the empty source store the
keyring is empty and `ParseKeyring` returns `kBadSerialisedKeyring` instead of
succeeding.  For a source in which AnMaid has a stored value and a pending
update, hence is not confirmed, the keyring holds AnMaid (line 254 tests the
stored value only) and the store rebuilt from it has a confirmed AnMaid
entry. -/
theorem round_trip_of_keyring_fails :
    keyringRoundTrip enumOrder SystemPacketMap.empty =
        (kBadSerialisedKeyring, SystemPacketMap.empty) ∧
      Confirmed storeBoth ANMAID = false ∧
      (keyringRoundTrip enumOrder storeBoth).1 = kSuccess ∧
      (∃ e, (keyringRoundTrip enumOrder storeBoth).2 ANMAID = some e) ∧
      Confirmed (keyringRoundTrip enumOrder storeBoth).2 ANMAID = true := by
  refine ⟨by decide, by decide, by decide, ⟨_, rfl⟩, by decide⟩

/-- C14, amended: for every source store that has at least one Signature-type
entry with a stored value, `ParseKeyring` applied on the empty store to the
output of `SerialiseKeyring` returns `kSuccess` and yields a store whose
confirmed Signature-type entries (type and stored value) are exactly the
Signature-type entries that had a stored value in the source, confirmed there
or not, and which has no entry of another type and no entry for a type that had
no stored value in the source.  For a source without such an entry
`ParseKeyring` returns `kBadSerialisedKeyring` and the store stays empty. -/
theorem keyring_round_trip (order : KeyOrder) (source : SystemPacketMap) :
    ((∃ t, IsSignature t = true ∧ hasStored source t) →
        (keyringRoundTrip order source).1 = kSuccess ∧
        (∀ t v, IsSignature t = true →
          ((Confirmed (keyringRoundTrip order source).2 t = true ∧
              slot (keyringRoundTrip order source).2 t true = some v) ↔
            slot source t true = some v)) ∧
        (∀ t, IsSignature t = false ∨ slot source t true = none →
          (keyringRoundTrip order source).2 t = none)) ∧
      ((¬ ∃ t, IsSignature t = true ∧ hasStored source t) →
        keyringRoundTrip order source = (kBadSerialisedKeyring, SystemPacketMap.empty)) := by
  constructor
  · intro hex
    have hne := (decoded_isEmpty order source).mpr hex
    unfold keyringRoundTrip
    rw [ParseKeyring_into_empty order _ hne]
    refine ⟨rfl, ?_, ?_⟩
    · intro t v hs
      simp only [Confirmed, IsConfirmed, slot, decoded_apply, hs, if_true]
      cases hentry : source t with
      | none => simp
      | some e =>
        rcases e with ⟨pe, st⟩
        cases st <;> simp
    · intro t h
      simp only [decoded_apply]
      rcases h with h | h
      · cases slot source t true <;> simp [h]
      · simp [h]
  · intro hno
    have hemp : (decodeKeyring (encodeKeyring (SerialiseKeyring order source))).isEmpty =
        true := by
      cases h : (decodeKeyring (encodeKeyring (SerialiseKeyring order source))).isEmpty
      · exact absurd ((decoded_isEmpty order source).mp h) hno
      · rfl
    simp [keyringRoundTrip, ParseKeyring, hemp]

/-- Witness for the amended C14: the keyring of `storeMixed` parsed into the
empty store gives back the confirmed Maid and nothing for Pmid; the keyring of a
cleared store is refused. -/
theorem keyring_round_trip_witness :
    (keyringRoundTrip enumOrder storeMixed).1 = kSuccess ∧
      (Confirmed (keyringRoundTrip enumOrder storeMixed).2 MAID = true ∧
        slot (keyringRoundTrip enumOrder storeMixed).2 MAID true = some (pkt MAID "maid")) ∧
      (keyringRoundTrip enumOrder storeMixed).2 PMID = none ∧
      keyringRoundTrip enumOrder (Clear storeMixed) =
        (kBadSerialisedKeyring, SystemPacketMap.empty) :=
  ⟨((keyring_round_trip enumOrder storeMixed).1 ⟨MAID, by decide, pkt MAID "maid", by decide⟩).1,
    (((keyring_round_trip enumOrder storeMixed).1
      ⟨MAID, by decide, pkt MAID "maid", by decide⟩).2.1 MAID (pkt MAID "maid")
        (by decide)).mpr (by decide),
    ((keyring_round_trip enumOrder storeMixed).1
      ⟨MAID, by decide, pkt MAID "maid", by decide⟩).2.2 PMID (Or.inl (by decide)),
    (keyring_round_trip enumOrder (Clear storeMixed)).2 (by
      rintro ⟨t, _, v, hv⟩
      simp [Clear, slot, SystemPacketMap.empty] at hv)⟩

/-- C15: for every store and every decoded keyring `M`, `ParseKeyring` returns
`kBadSerialisedKeyring` if and only if `M` is empty, and then the store is
unchanged; returns `kKeyringNotEmpty` if and only if `M` is not empty and some
type in `M` already has an entry in the store; and returns `kSuccess` if and
only if `M` is not empty and no type in `M` has an entry in the store, in which
case the resulting store is the previous store plus every entry of `M`. -/
theorem ParseKeyring_result (order : KeyOrder) (packets_ M : SystemPacketMap) :
    ((ParseKeyring order packets_ M).1 = kBadSerialisedKeyring ↔ ∀ t, M t = none) ∧
      ((∀ t, M t = none) → (ParseKeyring order packets_ M).2 = packets_) ∧
      ((ParseKeyring order packets_ M).1 = kKeyringNotEmpty ↔
        (∃ t e, M t = some e) ∧ ∃ t e e2, M t = some e ∧ packets_ t = some e2) ∧
      ((ParseKeyring order packets_ M).1 = kSuccess ↔
        (∃ t e, M t = some e) ∧ ∀ t e, M t = some e → packets_ t = none) ∧
      ((ParseKeyring order packets_ M).1 = kSuccess →
        (∀ t e, M t = some e → (ParseKeyring order packets_ M).2 t = some e) ∧
        (∀ t, M t = none → (ParseKeyring order packets_ M).2 t = packets_ t)) := by
  cases hemp : M.isEmpty with
  | true =>
    have hall := (SystemPacketMap.isEmpty_iff M).mp hemp
    have hr : ParseKeyring order packets_ M = (kBadSerialisedKeyring, packets_) := by
      simp [ParseKeyring, hemp]
    rw [hr]
    refine ⟨by simp [hall], fun _ => rfl, ?_, ?_, ?_⟩
    · simp [hall]
    · simp [hall]
    · intro h; cases h
  | false =>
    have hex := (SystemPacketMap.isEmpty_eq_false M).mp hemp
    have hnall : ¬ ∀ t, M t = none := by
      obtain ⟨t, e, ht⟩ := hex
      intro h; rw [h t] at ht; cases ht
    rcases ParseKeyring_code order packets_ M hemp with ⟨hc, t, ht⟩ | ⟨hc, hall, hst⟩
    · obtain ⟨⟨e, he⟩, ⟨e2, he2⟩⟩ := (collides_eq_true packets_ M t).mp ht
      refine ⟨by simp [hc, hnall], fun h => absurd h hnall, ?_, ?_, ?_⟩
      · simp only [hc, true_iff]
        exact ⟨hex, t, e, e2, he, he2⟩
      · simp only [hc]
        constructor
        · intro h; cases h
        · rintro ⟨_, h⟩
          rw [h t e he] at he2; cases he2
      · rw [hc]; intro h; cases h
    · have hdisj : ∀ t e, M t = some e → packets_ t = none := by
        intro t e he
        rcases (collides_eq_false packets_ M t).mp (hall t) with h | h
        · rw [he] at h; cases h
        · exact h
      refine ⟨by simp [hc, hnall], fun h => absurd h hnall, ?_, ?_, ?_⟩
      · simp only [hc]
        constructor
        · intro h; cases h
        · rintro ⟨_, t, e, e2, he, he2⟩
          rw [hdisj t e he] at he2; cases he2
      · simp only [hc, true_iff]
        exact ⟨hex, hdisj⟩
      · intro _
        rw [hst]
        constructor
        · intro t e he
          rw [mergeOver_of_none _ _ _ _ (hdisj t e he) (order.complete t)]
          exact he
        · intro t hM
          unfold mergeOver
          cases packets_ t <;> simp [hM]

/-- Witness for C15: a keyring with Maid parsed into a store that already has a
Maid entry gives `kKeyringNotEmpty`; the empty keyring gives
`kBadSerialisedKeyring` and no change; a keyring with AnMid and AnMaid parsed
into a store with neither succeeds and adds both. -/
theorem ParseKeyring_result_witness :
    (ParseKeyring enumOrder storeMaid keyringMaid).1 = kKeyringNotEmpty ∧
      (ParseKeyring enumOrder storeMaid SystemPacketMap.empty).1 = kBadSerialisedKeyring ∧
      (ParseKeyring enumOrder storeMaid SystemPacketMap.empty).2 = storeMaid ∧
      (ParseKeyring enumOrder storeMpid keyringTwo).1 = kSuccess ∧
      (ParseKeyring enumOrder storeMpid keyringTwo).2 ANMID = keyringTwo ANMID ∧
      (ParseKeyring enumOrder storeMpid keyringTwo).2 MPID = storeMpid MPID :=
  ⟨(ParseKeyring_result enumOrder storeMaid keyringMaid).2.2.1.mpr
      ⟨⟨MAID, _, rfl⟩, MAID, _, _, rfl, rfl⟩,
    (ParseKeyring_result enumOrder storeMaid SystemPacketMap.empty).1.mpr (fun _ => rfl),
    (ParseKeyring_result enumOrder storeMaid SystemPacketMap.empty).2.1 (fun _ => rfl),
    (ParseKeyring_result enumOrder storeMpid keyringTwo).2.2.2.1.mpr
      ⟨⟨ANMID, _, rfl⟩, by decide⟩,
    ((ParseKeyring_result enumOrder storeMpid keyringTwo).2.2.2.2 (by decide)).1 ANMID _ rfl,
    ((ParseKeyring_result enumOrder storeMpid keyringTwo).2.2.2.2 (by decide)).2 MPID
      (by decide)⟩

/-- C16: `ParseKeyring` never overwrites and does not roll back.  For every
store and decoded keyring `M`, every entry the store had before the call is the
same after it, whatever the result code; and when the result is
`kKeyringNotEmpty`, the keys in iteration order split at the first colliding
type into those before it, that type, and those after it, and the store
afterwards is the previous store plus the entries of `M` for the keys before
the first collision: the colliding type and every key after it keep what the
store had. -/
theorem ParseKeyring_no_overwrite (order : KeyOrder) (packets_ M : SystemPacketMap) :
    (∀ t e, packets_ t = some e → (ParseKeyring order packets_ M).2 t = some e) ∧
      ((ParseKeyring order packets_ M).1 = kKeyringNotEmpty →
        ∃ pre c post, order.keys = pre ++ c :: post ∧
          (∀ t ∈ pre, collides packets_ M t = false) ∧ collides packets_ M c = true ∧
          (∀ t ∈ pre, packets_ t = none → (ParseKeyring order packets_ M).2 t = M t) ∧
          (∀ t, t ∉ pre → (ParseKeyring order packets_ M).2 t = packets_ t) ∧
          (∀ t ∈ c :: post, (ParseKeyring order packets_ M).2 t = packets_ t)) := by
  refine ⟨fun t e h => ParseKeyring_keeps order packets_ M t e h, ?_⟩
  intro hcode
  cases hemp : M.isEmpty with
  | true => simp [ParseKeyring, hemp] at hcode
  | false =>
    rcases ParseKeyring_cases order packets_ M hemp with ⟨_, hr⟩ | ⟨pre, c, post, hl, hpre, hc, hr⟩
    · rw [hr] at hcode; cases hcode
    · refine ⟨pre, c, post, hl, hpre, hc, ?_, ?_, ?_⟩
      · intro t ht hnone
        rw [hr]
        exact mergeOver_of_none _ _ _ _ hnone ht
      · intro t ht
        rw [hr]
        exact mergeOver_of_not_mem _ _ _ _ ht
      · intro t ht
        have hnd := order.nodup
        rw [hl] at hnd
        have hnot : t ∉ pre := fun hp => (List.nodup_append.mp hnd).2.2 hp ht
        rw [hr]
        exact mergeOver_of_not_mem _ _ _ _ hnot

/-- Witness for C16: a keyring with AnMid and AnMaid parsed into a store that
has AnMaid: AnMid, visited first, is added; AnMaid collides and keeps the
store's entry. -/
theorem ParseKeyring_no_overwrite_witness :
    (ParseKeyring enumOrder storeMaid keyringTwo).1 = kKeyringNotEmpty ∧
      (ParseKeyring enumOrder storeMaid keyringTwo).2 ANMID = keyringTwo ANMID ∧
      (ParseKeyring enumOrder storeMaid keyringTwo).2 ANMAID = storeMaid ANMAID ∧
      (∃ pre c post, enumOrder.keys = pre ++ c :: post ∧
          (∀ t ∈ pre, collides storeMaid keyringTwo t = false) ∧
          collides storeMaid keyringTwo c = true ∧
          (∀ t ∈ pre, storeMaid t = none →
            (ParseKeyring enumOrder storeMaid keyringTwo).2 t = keyringTwo t) ∧
          (∀ t, t ∉ pre → (ParseKeyring enumOrder storeMaid keyringTwo).2 t = storeMaid t) ∧
          (∀ t ∈ c :: post, (ParseKeyring enumOrder storeMaid keyringTwo).2 t = storeMaid t)) :=
  ⟨by decide, by decide,
    (ParseKeyring_no_overwrite enumOrder storeMaid keyringTwo).1 ANMAID _ rfl,
    (ParseKeyring_no_overwrite enumOrder storeMaid keyringTwo).2 (by decide)⟩

/-- C17: for every store, after `ClearKeyring` no Signature-type entry remains,
whatever its pending and stored values were, and every entry of another type
is as it was before the call. -/
theorem ClearKeyring_effect (order : KeyOrder) (packets_ : SystemPacketMap) :
    (∀ t, IsSignature t = true → ClearKeyring order packets_ t = none) ∧
      (∀ t, IsSignature t = false → ClearKeyring order packets_ t = packets_ t) := by
  constructor
  · intro t h
    simp [ClearKeyring_apply, h]
  · intro t h
    simp [ClearKeyring_apply, h]

/-- Witness for C17: in `storeBoth` AnMaid has a stored and a pending value and
Maid a pending value only; both are removed, and the pending Pmid stays. -/
theorem ClearKeyring_effect_witness :
    ClearKeyring enumOrder storeBoth ANMAID = none ∧
      ClearKeyring enumOrder storeBoth MAID = none ∧
      ClearKeyring enumOrder storeBoth PMID =
        some { pending := some (pkt PMID "pmid"), stored := none } :=
  ⟨(ClearKeyring_effect enumOrder storeBoth).1 ANMAID (by decide),
    (ClearKeyring_effect enumOrder storeBoth).1 MAID (by decide),
    ((ClearKeyring_effect enumOrder storeBoth).2 PMID (by decide)).trans (by decide)⟩

/-- C18: over every single operation of the store, if a type has a stored value
before the operation and has a stored value after it, then either the stored
value is unchanged, or the operation was a `ConfirmPacket` of a packet of that
type that returned `kSuccess` and the new stored value is the value that was
the type's pending value just before the call. -/
theorem stored_replaced_only_by_confirm (order : KeyOrder) (packets_ : SystemPacketMap)
    (op : Operation) (t : PacketType) (v w : Packet)
    (hbefore : slot packets_ t true = some v)
    (hafter : slot (Operation.run order packets_ op) t true = some w) :
    w = v ∨ ∃ p, op = Operation.confirmPacket (some p) ∧ p.packet_type = t ∧
      (ConfirmPacket packets_ (some p)).1 = kSuccess ∧ slot packets_ t false = some w := by
  have same : ∀ s2 : SystemPacketMap, slot s2 t true = slot packets_ t true →
      slot s2 t true = some w → w = v := by
    intro s2 h1 h2
    rw [h1, hbefore] at h2
    exact (Option.some.inj h2).symm
  cases op with
  | addPendingPacket packet =>
    exact Or.inl (same _ (AddPendingPacket_stored packets_ packet t) hafter)
  | confirmPacket packet =>
    rcases ConfirmPacket_stored packets_ packet t with h | ⟨p, pend, hp, hpt, hcode, hpe, hst, _⟩
    · exact Or.inl (same _ h hafter)
    · right
      subst hp
      have hw : pend = w := by
        have h2 : slot (ConfirmPacket packets_ (some p)).2 t true = some w := hafter
        rw [hst] at h2
        exact Option.some.inj h2
      subst hw
      exact ⟨p, rfl, hpt, hcode, hpe⟩
  | revertPacket packet_type =>
    exact Or.inl (same _ (RevertPacket_stored packets_ packet_type t) hafter)
  | deletePacket packet_type =>
    rcases DeletePacket_apply packets_ packet_type t with h | h
    · have h2 : slot (DeletePacket packets_ packet_type).2 t true = some w := hafter
      rw [slot_of_none _ _ _ h] at h2
      cases h2
    · exact Or.inl (same _ (slot_congr _ _ t true h) hafter)
  | clear =>
    have h2 : slot (Clear packets_) t true = some w := hafter
    simp [Clear, slot, SystemPacketMap.empty] at h2
  | clearKeyring =>
    have h2 : slot (ClearKeyring order packets_) t true = some w := hafter
    by_cases hs : IsSignature t = true
    · rw [slot_of_none _ _ _ (by simp [ClearKeyring_apply, hs])] at h2
      cases h2
    · exact Or.inl (same _ (slot_congr _ _ t true (by simp [ClearKeyring_apply, hs])) h2)
  | parseKeyring spm =>
    obtain ⟨e, he⟩ := entry_of_slot packets_ t true v hbefore
    have hk := ParseKeyring_keeps order packets_ spm t e he
    exact Or.inl (same _ (slot_congr _ _ t true (hk.trans he.symm)) hafter)
  | getPacketByType _ _ => exact Or.inl (same _ rfl hafter)
  | getPacketById _ _ => exact Or.inl (same _ rfl hafter)
  | confirmed _ => exact Or.inl (same _ rfl hafter)
  | serialiseKeyring => exact Or.inl (same _ rfl hafter)

/-- Witness for C18: AnMaid has a stored value and a new pending one; confirming
the new one replaces the stored value by it, and proposing yet another value
leaves the stored value alone. -/
theorem stored_replaced_only_by_confirm_witness :
    (pkt ANMAID "new") ≠ (pkt ANMAID "anmaid") ∧
    slot (ConfirmPacket storeBoth (some (pkt ANMAID "new"))).2 ANMAID true =
      some (pkt ANMAID "new") ∧
    ((pkt ANMAID "new") = (pkt ANMAID "anmaid") ∨
        ∃ p, Operation.confirmPacket (some (pkt ANMAID "new")) =
            Operation.confirmPacket (some p) ∧ p.packet_type = ANMAID ∧
          (ConfirmPacket storeBoth (some p)).1 = kSuccess ∧
          slot storeBoth ANMAID false = some (pkt ANMAID "new")) ∧
      ((pkt ANMAID "anmaid") = (pkt ANMAID "anmaid") ∨
        ∃ p, Operation.addPendingPacket (some (pkt ANMAID "third")) =
            Operation.confirmPacket (some p) ∧ p.packet_type = ANMAID ∧
          (ConfirmPacket storeBoth (some p)).1 = kSuccess ∧
          slot storeBoth ANMAID false = some (pkt ANMAID "anmaid")) :=
  ⟨by decide, by decide, stored_replaced_only_by_confirm enumOrder storeBoth
      (Operation.confirmPacket (some (pkt ANMAID "new"))) ANMAID (pkt ANMAID "anmaid")
      (pkt ANMAID "new") (by decide) (by decide),
    stored_replaced_only_by_confirm enumOrder storeBoth
      (Operation.addPendingPacket (some (pkt ANMAID "third"))) ANMAID (pkt ANMAID "anmaid")
      (pkt ANMAID "anmaid") (by decide) (by decide)⟩

/-- C20: in every store reached from the empty store by a finite sequence of
`AddPendingPacket`, `ConfirmPacket` and `RevertPacket` calls with arbitrary
arguments, whenever a type has a stored value, every prerequisite type of it in
the Dependency Table has a stored value too. -/
theorem stored_dependency_closure (calls : List PendingCall) (t d : PacketType)
    (hstored : hasStored (reached calls) t) (hd : d ∈ prerequisites t) :
    hasStored (reached calls) d := by
  apply closure_foldl calls SystemPacketMap.empty _ t d hstored hd
  intro u _ hu
  obtain ⟨v, hv⟩ := hu
  simp [slot, SystemPacketMap.empty] at hv

/-- Witness for C20: after AnMaid, Maid and Pmid have been added and confirmed
in turn and a new AnMaid has been proposed, Pmid has a stored value, and so has
its prerequisite Maid. -/
theorem stored_dependency_closure_witness :
    hasStored (reached
        [PendingCall.add (some (pkt ANMAID "anmaid")),
          PendingCall.confirm (some (pkt ANMAID "anmaid")),
          PendingCall.add (some (pkt MAID "maid")),
          PendingCall.confirm (some (pkt MAID "maid")),
          PendingCall.add (some (pkt PMID "pmid")),
          PendingCall.confirm (some (pkt PMID "pmid")),
          PendingCall.add (some (pkt ANMAID "new"))]) PMID ∧
      hasStored (reached
        [PendingCall.add (some (pkt ANMAID "anmaid")),
          PendingCall.confirm (some (pkt ANMAID "anmaid")),
          PendingCall.add (some (pkt MAID "maid")),
          PendingCall.confirm (some (pkt MAID "maid")),
          PendingCall.add (some (pkt PMID "pmid")),
          PendingCall.confirm (some (pkt PMID "pmid")),
          PendingCall.add (some (pkt ANMAID "new"))]) MAID :=
  ⟨⟨pkt PMID "pmid", by decide⟩,
    stored_dependency_closure _ PMID MAID ⟨pkt PMID "pmid", by decide⟩ (by decide)⟩

end maidsafe.passport
